import Mathlib

set_option autoImplicit false

/-!
# Verification of the supple-sql where-compiler and query engine

A shallow embedding of the repository's where-compiler (`src/wheres.js`) and
of the `RecordQuery` query engine (`src/index.js`), together with proofs about
placeholder numbering, parenthesization, sentinel handling, output-shape
validation, limit/offset invalidation, `count()` semantics and the iteration
protocol.

JavaScript values flowing through the compiler are modelled by the inductive
type `SQL.JsVal`; the stateful `RecordQuery` option/loaded-flag machinery is
modelled by `SQL.QState` with one Lean function per chainable method.  The
recursive compiler functions are written in a fuel-passing style (the fuel
models the JavaScript call stack); every theorem about them is either
conditional on an `.ok` result or instantiated at an explicit fuel.
-/

namespace SQL

/-! ## Monadic plumbing lemmas for `Except` -/

@[simp] theorem except_ok_bind {ε α β : Type} (a : α) (f : α → Except ε β) :
    (Except.ok a : Except ε α) >>= f = f a := rfl

@[simp] theorem except_error_bind {ε α β : Type} (e : ε) (f : α → Except ε β) :
    (Except.error e : Except ε α) >>= f = Except.error e := rfl

@[simp] theorem except_pure_eq_ok {ε α : Type} (a : α) :
    (pure a : Except ε α) = Except.ok a := rfl

@[simp] theorem except_ok_inj {ε α : Type} (a b : α) :
    (Except.ok a : Except ε α) = Except.ok b ↔ a = b := by
  constructor
  · intro h; cases h; rfl
  · intro h; rw [h]

@[simp] theorem except_ok_ne_error {ε α : Type} (a : α) (e : ε) :
    (Except.ok a : Except ε α) ≠ Except.error e := by
  intro h; cases h

@[simp] theorem except_error_ne_ok {ε α : Type} (a : α) (e : ε) :
    (Except.error e : Except ε α) ≠ Except.ok a := by
  intro h; cases h

@[simp] theorem except_error_inj {ε α : Type} (e e' : ε) :
    (Except.error e : Except ε α) = Except.error e' ↔ e = e' := by
  constructor
  · intro h; cases h; rfl
  · intro h; rw [h]

/-! ## Decimal rendering of numbers (JS `${n}` string interpolation) -/

/-- The character for a single decimal digit value. -/
def digitChar (n : Nat) : Char := Char.ofNat (48 + n)

/-- Decimal digits of `n`, most significant first; fuel-passing
(`n + 1` fuel is always sufficient because `n / 10 < n`). -/
def natDigitsGo : Nat → Nat → List Char
  | 0, _ => []
  | f + 1, n =>
    if n < 10 then [digitChar n] else natDigitsGo f (n / 10) ++ [digitChar (n % 10)]

/-- The decimal digits of `n`, most significant first. -/
def natDigits (n : Nat) : List Char := natDigitsGo (n + 1) n

/-- Decimal rendering of a natural number as a string. -/
def natRepr (n : Nat) : String := String.mk (natDigits n)

/-- Decimal rendering of an integer (JS number-to-string for integral values). -/
def intRepr : Int → String
  | .ofNat n => natRepr n
  | .negSucc n => "-" ++ natRepr (n + 1)

theorem digitChar_isDigit {n : Nat} (h : n < 10) : (digitChar n).isDigit = true := by
  interval_cases n <;> decide

theorem digitChar_toNat {n : Nat} (h : n < 10) : (digitChar n).toNat = 48 + n := by
  interval_cases n <;> decide

/-- Value of a digit list read as a decimal number, extending the accumulator `m`. -/
def digitsVal (m : Nat) (ds : List Char) : Nat :=
  ds.foldl (fun a c => 10 * a + (c.toNat - 48)) m

theorem digitsVal_nil (m : Nat) : digitsVal m [] = m := rfl

theorem digitsVal_cons (m : Nat) (c : Char) (ds : List Char) :
    digitsVal m (c :: ds) = digitsVal (10 * m + (c.toNat - 48)) ds := rfl

theorem digitsVal_append (m : Nat) (a b : List Char) :
    digitsVal m (a ++ b) = digitsVal (digitsVal m a) b := by
  induction a generalizing m with
  | nil => rfl
  | cons c cs ih => simp [digitsVal_cons, ih]

/-- With sufficient fuel, `natDigitsGo` produces only digit characters,
is nonempty, and parses back to its input. -/
theorem natDigitsGo_spec :
    ∀ f n, n < f →
      (∀ c ∈ natDigitsGo f n, c.isDigit = true) ∧ natDigitsGo f n ≠ [] ∧
        digitsVal 0 (natDigitsGo f n) = n := by
  intro f
  induction f with
  | zero => intro n h; omega
  | succ f ih =>
    intro n _
    by_cases h10 : n < 10
    · refine ⟨?_, ?_, ?_⟩
      · intro c hc
        simp [natDigitsGo, h10] at hc
        subst hc
        exact digitChar_isDigit h10
      · simp [natDigitsGo, h10]
      · simp [natDigitsGo, h10, digitsVal_cons, digitsVal_nil,
          digitChar_toNat h10]
    · have hdivlt : n / 10 < f := by
        have := Nat.div_lt_self (n := n) (by omega) (by omega : 1 < 10)
        omega
      obtain ⟨hall, hne, hval⟩ := ih (n / 10) hdivlt
      refine ⟨?_, ?_, ?_⟩
      · intro c hc
        simp [natDigitsGo, h10] at hc
        rcases hc with hc | hc
        · exact hall c hc
        · subst hc
          exact digitChar_isDigit (Nat.mod_lt _ (by omega))
      · simp [natDigitsGo, h10]
      · have hmod : (digitChar (n % 10)).toNat = 48 + n % 10 :=
          digitChar_toNat (Nat.mod_lt _ (by omega))
        simp [natDigitsGo, h10, digitsVal_append, hval, digitsVal_cons,
          digitsVal_nil, hmod]
        omega

theorem natDigits_all_digit (n : Nat) : ∀ c ∈ natDigits n, c.isDigit = true :=
  (natDigitsGo_spec (n + 1) n (by omega)).1

theorem natDigits_ne_nil (n : Nat) : natDigits n ≠ [] :=
  (natDigitsGo_spec (n + 1) n (by omega)).2.1

theorem natDigits_val (n : Nat) : digitsVal 0 (natDigits n) = n :=
  (natDigitsGo_spec (n + 1) n (by omega)).2.2

theorem isDigit_ne_dollar {c : Char} (h : c.isDigit = true) : c ≠ '$' := by
  intro hc
  subst hc
  simp [Char.isDigit] at h

/-! ## Scanning a SQL string for `$n` placeholders

`phScan` is a small state machine recognizing the maximal runs matched by the
regular expression `\$(\d+)` and returning, in order of appearance, the decimal
values of the matched digit runs. -/

/-- Scanner state: outside a placeholder, just after a `$`, or inside the
digit run of a placeholder with accumulated value `n`. -/
inductive PhSt : Type where
  | idle : PhSt
  | dollar : PhSt
  | num : Nat → PhSt
  deriving Repr, DecidableEq

/-- Scan a character list, emitting the values of all `$digits` placeholders. -/
def phScan : List Char → PhSt → List Nat
  | [], .num n => [n]
  | [], _ => []
  | c :: rest, .idle => phScan rest (if c = '$' then .dollar else .idle)
  | c :: rest, .dollar =>
    if c.isDigit then phScan rest (.num (c.toNat - 48))
    else phScan rest (if c = '$' then .dollar else .idle)
  | c :: rest, .num n =>
    if c.isDigit then phScan rest (.num (10 * n + (c.toNat - 48)))
    else n :: phScan rest (if c = '$' then .dollar else .idle)

/-- The placeholder values appearing in a string, in order of appearance. -/
def placeholders (s : String) : List Nat := phScan s.data .idle

/-- A character list whose head (if any) is not a decimal digit. -/
def HeadNotDigit : List Char → Prop
  | [] => True
  | c :: _ => c.isDigit = false

instance : DecidablePred HeadNotDigit := by
  intro l
  cases l <;> simp [HeadNotDigit] <;> infer_instance

/-- No `$` occurs in the character list. -/
def NoDollar (l : List Char) : Prop := ∀ c ∈ l, c ≠ '$'

instance : DecidablePred NoDollar := fun l =>
  decidable_of_iff (∀ c ∈ l, c ≠ '$') Iff.rfl

/-- Scanning distributes over append when the right part does not begin with
a digit (so the left part's trailing placeholder, if any, cannot be extended). -/
theorem phScan_append (a : List Char) (st : PhSt) (b : List Char)
    (hb : HeadNotDigit b) :
    phScan (a ++ b) st = phScan a st ++ phScan b .idle := by
  induction a generalizing st with
  | nil =>
    cases st with
    | idle => simp [phScan]
    | dollar =>
      cases b with
      | nil => simp [phScan]
      | cons c rest =>
        simp only [HeadNotDigit] at hb
        simp [phScan, hb]
    | num n =>
      cases b with
      | nil => simp [phScan]
      | cons c rest =>
        simp only [HeadNotDigit] at hb
        simp [phScan, hb]
  | cons c cs ih =>
    cases st with
    | idle => simpa [phScan] using ih _
    | dollar =>
      by_cases hc : c.isDigit <;> simp [phScan, hc, ih]
    | num n =>
      by_cases hc : c.isDigit <;> simp [phScan, hc, ih]

/-- A `$`-free prefix in the idle state contributes nothing and keeps the
scanner idle. -/
theorem phScan_nodollar_prefix (a b : List Char) (ha : NoDollar a) :
    phScan (a ++ b) .idle = phScan b .idle := by
  induction a with
  | nil => simp
  | cons c cs ih =>
    have hc : c ≠ '$' := ha c (by simp)
    have hcs : NoDollar cs := fun x hx => ha x (by simp [hx])
    simp [phScan, hc, ih hcs]

theorem phScan_nodollar_nil (a : List Char) (ha : NoDollar a) :
    phScan a .idle = [] := by
  simpa using phScan_nodollar_prefix a [] ha

/-- Consuming an all-digit run from the `num` state accumulates its value. -/
theorem phScan_digits_num (ds : List Char) (m : Nat) (b : List Char)
    (hds : ∀ c ∈ ds, c.isDigit = true) (hb : HeadNotDigit b) :
    phScan (ds ++ b) (.num m) = digitsVal m ds :: phScan b .idle := by
  induction ds generalizing m with
  | nil =>
    cases b with
    | nil => simp [phScan, digitsVal_nil]
    | cons c rest =>
      simp only [HeadNotDigit] at hb
      simp [phScan, hb, digitsVal_nil]
  | cons c cs ih =>
    have hc : c.isDigit = true := hds c (by simp)
    have hcs : ∀ x ∈ cs, x.isDigit = true := fun x hx => hds x (by simp [hx])
    simp [phScan, hc, ih _ hcs, digitsVal_cons]

/-- The scan of a rendered placeholder `$n` followed by non-digit text. -/
theorem phScan_placeholder (n : Nat) (b : List Char) (hb : HeadNotDigit b) :
    phScan (('$' :: natDigits n) ++ b) .idle = n :: phScan b .idle := by
  have h1 : phScan (('$' :: natDigits n) ++ b) .idle =
      phScan (natDigits n ++ b) .dollar := by
    simp [phScan]
  rw [h1]
  obtain ⟨d, ds, hds⟩ : ∃ d ds, natDigits n = d :: ds := by
    cases h : natDigits n with
    | nil => exact absurd h (natDigits_ne_nil n)
    | cons d ds => exact ⟨d, ds, rfl⟩
  have hd : d.isDigit = true := by
    have := natDigits_all_digit n
    rw [hds] at this
    exact this d (by simp)
  have hdsall : ∀ c ∈ ds, c.isDigit = true := by
    have := natDigits_all_digit n
    rw [hds] at this
    exact fun c hc => this c (by simp [hc])
  rw [hds]
  have h2 : phScan ((d :: ds) ++ b) .dollar = phScan (ds ++ b) (.num (d.toNat - 48)) := by
    simp [phScan, hd]
  rw [h2, phScan_digits_num ds _ b hdsall hb]
  have : digitsVal (d.toNat - 48) ds = digitsVal 0 (d :: ds) := by
    simp [digitsVal_cons]
  rw [this, ← hds, natDigits_val]

theorem natDigits_nodollar (n : Nat) : NoDollar (natDigits n) := fun c hc =>
  isDigit_ne_dollar (natDigits_all_digit n c hc)

/-! ## Shared string helpers (`src/utils/case.js`, `src/utils/sql.js`) -/

/-- `toSnake` from `src/utils/case.js`: every ASCII uppercase letter is
replaced by `_` followed by its lowercase form.  (The source's
`result[0] = result[0].toLowerCase()` line is a no-op on immutable JS
strings, so it is not modelled.) -/
def snakeChars : List Char → List Char
  | [] => []
  | c :: rest =>
    if c.isUpper then '_' :: c.toLower :: snakeChars rest else c :: snakeChars rest

def toSnake (s : String) : String := String.mk (snakeChars s.data)

/-- `toUpperCase` on ASCII strings (used for connectives and sort directions). -/
def asciiUpper (s : String) : String := String.mk (s.data.map Char.toUpper)

/-- `quoteIdentifier` from `src/utils/sql.js`: wrap in double quotes. -/
def quoteIdentifier (s : String) : String := "\"" ++ s ++ "\""

/-- `Array.prototype.join(sep)` on a list of strings. -/
def joinSep (sep : String) : List String → String
  | [] => ""
  | [x] => x
  | x :: xs => x ++ sep ++ joinSep sep xs

/-! ## Data model (`src/wheres.js` value universe and `RecordQuery` state) -/

/-- A field definition from a record type's field registry: an optional
explicit database column name and a declared type tag. -/
structure FieldDef : Type where
  nameOv : Option String := none
  type : String := "text"
  deriving Repr, DecidableEq

abbrev FieldDefs := List (String × FieldDef)

/-- `getFieldDbName` from `src/utils/misc.js`. -/
def getFieldDbName (fds : FieldDefs) (key : String) : String :=
  match fds.lookup key with
  | some fd =>
    match fd.nameOv with
    | some n => n
    | none => toSnake key
  | none => toSnake key

/-- The `_options.returns` value of a `RecordQuery`: absent, a single key
(string), or multiple keys (array; Sets are converted on entry). -/
inductive RetVal : Type where
  | noneR : RetVal
  | single : String → RetVal
  | multi : List String → RetVal
  deriving Repr, DecidableEq

mutual
/-- The JavaScript values that can occur in a condition tree, together with
the (nested) model of a `RecordQuery` used as a sub-query.

`litV` stands for an ordinary primitive scalar (number-like: truthy, without
own enumerable properties); `symV` is a user symbol with its description;
`notNullV`/`nowV` are the two sentinel symbols from `src/constants.js`. -/
inductive JsVal : Type where
  | objV : List (String × JsVal) → JsVal
  | arrV : List JsVal → JsVal
  | setV : List JsVal → JsVal
  | connV : (isOr : Bool) → (comparison : Option String) → List JsVal → JsVal
  | sqlValueV : (bind : Bool) → (comparison : Option String) → (quote : Bool) →
      JsVal → JsVal
  | queryV : Query → JsVal
  | litV : String → JsVal
  | nullV : JsVal
  | undefV : JsVal
  | notNullV : JsVal
  | nowV : JsVal
  | symV : String → JsVal

/-- The compile-relevant state of a `RecordQuery`: record name, table, field
registry, accumulated wheres, order-bys (each a key with an optional explicit
direction), default order-bys (primary keys ascending), limit/offset, output
shape and returns selector. -/
inductive Query : Type where
  | mk : (recordName : String) → (table : String) → (fields : FieldDefs) →
      (wheres : List JsVal) →
      (orderBys : List (String × Option String)) →
      (defaultOrderBys : List (String × Option String)) →
      (limit : Option Int) → (offset : Option Int) →
      (output : String) → (returns : RetVal) → Query
end

def Query.recordName : Query → String | .mk rn _ _ _ _ _ _ _ _ _ => rn
def Query.table : Query → String | .mk _ t _ _ _ _ _ _ _ _ => t
def Query.fields : Query → FieldDefs | .mk _ _ f _ _ _ _ _ _ _ => f
def Query.wheres : Query → List JsVal | .mk _ _ _ w _ _ _ _ _ _ => w
def Query.orderBys : Query → List (String × Option String)
  | .mk _ _ _ _ o _ _ _ _ _ => o
def Query.defaultOrderBys : Query → List (String × Option String)
  | .mk _ _ _ _ _ d _ _ _ _ => d
def Query.limit : Query → Option Int | .mk _ _ _ _ _ _ l _ _ _ => l
def Query.offset : Query → Option Int | .mk _ _ _ _ _ _ _ o _ _ => o
def Query.output : Query → String | .mk _ _ _ _ _ _ _ _ out _ => out
def Query.returns : Query → RetVal | .mk _ _ _ _ _ _ _ _ _ r => r

/-! ## Constants (`src/constants.js`) -/

/-- Comparisons requiring a parenthesized right-hand side
(`PARENS_COMPARISONS`; the source set also contains `comparisonDefs.not`,
which is `undefined` and can never match a looked-up string). -/
def PARENS_COMPARISONS : List String :=
  ["= ALL", "= ANY", "EXISTS", "IN", "!= ALL", "!= ANY", "NOT EXISTS", "NOT IN"]

/-- Comparisons that do not support a left-hand side (`RHS_ONLY_COMPARISONS`,
modulo the same `undefined` member). -/
def RHS_ONLY_COMPARISONS : List String := ["EXISTS", "NOT EXISTS"]

/-- Comparisons that require text operands (`TEXT_COMPARISONS`). -/
def TEXT_COMPARISONS : List String :=
  ["ILIKE", "~*", "LIKE", "NOT ILIKE", "!~*", "NOT LIKE", "!~", "NOT SIMILAR TO",
   "~", "SIMILAR TO"]

/-- Error kinds raised by the compiler and engine (`src/errors.js`), plus
`fuelExhausted` (the modelled JS call stack ran out) and `jsError` (a host
language `TypeError` on a degenerate dynamic value). -/
inductive SqlError : Type where
  | fieldNotFound (key recordName : String)
  | whereParser (msg : String)
  | incompatibleOutputSpecified (implied : String)
  | invalidOutputType (t : String)
  | unavailableInStreamMode (msg : String)
  | queryNotLoadedIteration
  | asyncIterationUnavailable
  | jsError (msg : String)
  | fuelExhausted
  deriving Repr, DecidableEq

/-! ## JavaScript dynamic-value helpers -/

mutual
/-- JS `String(v)` conversion for the values we model.  Arrays render their
elements joined by commas (with `null`/`undefined` rendering empty inside an
array); plain objects, query instances, connectives and wrapped values render
as `[object Object]`, Sets as `[object Set]`. -/
def jsToString : JsVal → String
  | .objV _ => "[object Object]"
  | .arrV xs => jsToStringElems xs
  | .setV _ => "[object Set]"
  | .connV _ _ _ => "[object Object]"
  | .sqlValueV _ _ _ _ => "[object Object]"
  | .queryV _ => "[object Object]"
  | .litV s => s
  | .nullV => "null"
  | .undefV => "undefined"
  | .notNullV => "Symbol(NOT NULL)"
  | .nowV => "Symbol(NOW())"
  | .symV d => "Symbol(" ++ d ++ ")"

/-- Element rendering for `Array.prototype.join(',')`: `null`/`undefined`
become the empty string, everything else renders via `String(·)`. -/
def jsToStringElem : JsVal → String
  | .nullV => ""
  | .undefV => ""
  | v => jsToString v

def jsToStringElems : List JsVal → String
  | [] => ""
  | [x] => jsToStringElem x
  | x :: xs => jsToStringElem x ++ "," ++ jsToStringElems xs
end

mutual
/-- Whether implicit string conversion of the value would throw a JS
`TypeError` (a symbol at top level or inside a joined array). -/
def containsSymbol : JsVal → Bool
  | .symV _ => true
  | .notNullV => true
  | .nowV => true
  | .arrV xs => containsSymbolList xs
  | _ => false

def containsSymbolList : List JsVal → Bool
  | [] => false
  | x :: xs => containsSymbol x || containsSymbolList xs
end

/-- Implicit JS string conversion, throwing on symbols. -/
def jsTemplateE (v : JsVal) : Except SqlError String :=
  if containsSymbol v then .error (.jsError "Cannot convert a Symbol value to a string")
  else .ok (jsToString v)

/-- Model of `pg-format`'s `literal()` (external library): single-quote the
rendered value.  Escaping of embedded quotes is not modelled; no claim
depends on the quoted text. -/
def quoteLiteralStr (v : JsVal) : String := "'" ++ jsToString v ++ "'"

/-- `SqlValue.getValue()` from `src/SqlValue.js`: the wrapped value, passed
through `quoteLiteral` when the quote flag is set (which always yields a
string, i.e. a `litV`). -/
def sqlValueGetValue (quote : Bool) (v : JsVal) : JsVal :=
  if quote then .litV (quoteLiteralStr v) else v

/-- JS property access `where.comparison` on an arbitrary value: only
`ConnectedWheres` and `SqlValue` instances carry one. -/
def jsCompOf : JsVal → Option String
  | .connV _ c _ => c
  | .sqlValueV _ c _ _ => c
  | _ => none

/-- JS `a || b` on the comparison option. -/
def jsOr (a b : Option String) : Option String :=
  match a with
  | some x => some x
  | none => b

/-- Whether the value is a plain object literal (prototype `Object.prototype`). -/
def isPojoLike : JsVal → Bool
  | .objV _ => true
  | _ => false

/-- A best-effort JS property-key string for a value (used for the degenerate
`Set`-at-node-position path, where `set.entries()` yields `[v, v]` pairs and
`v` is then used as a lookup key). -/
def jsKeyString (v : JsVal) : String := jsToString v

/-- The `[key, value]` entries iterated by the ungrouped branch of
`getWhereSql` when no `lhs` is forced: `Object.entries` for plain objects,
`.entries()` for Sets, the empty list for primitives/symbols (no own
enumerable properties), and a host `TypeError` for `null`/`undefined`.
A `RecordQuery` instance at node position would enumerate its own instance
properties (`debug`, `conn`, …); that degenerate path is modelled as a host
error. -/
def entriesOf : JsVal → Except SqlError (List (Option String × JsVal))
  | .objV es => .ok (es.map fun kv => (some kv.1, kv.2))
  | .setV es => .ok (es.map fun v => (some (jsKeyString v), v))
  | .litV _ => .ok []
  | .symV _ => .ok []
  | .notNullV => .ok []
  | .nowV => .ok []
  | .queryV _ => .error (.jsError "record query enumerated as a where object")
  | .nullV => .error (.jsError "Cannot convert undefined or null to object")
  | .undefV => .error (.jsError "Cannot convert undefined or null to object")
  | .arrV _ => .ok []
  | .connV _ _ _ => .ok []
  | .sqlValueV _ _ _ _ => .ok []

/-- The connective keyword of an `And`/`Or` (`connectiveDefs`). -/
def connName (isOr : Bool) : String := if isOr then "or" else "and"

/-- `joinWithConnective` from `src/wheres.js`. -/
def joinWithConnective (parts : List String) (connective : String)
    (siblings : Nat) : String :=
  let joined := joinSep (" " ++ asciiUpper connective ++ " ") parts
  if 1 < parts.length ∧ 0 < siblings then "(" ++ joined ++ ")" else joined

/-- The tail of the ungrouped branch of `getWhereSql` (lines 217–218):
drop falsy parts, fall back to the literal `true` predicate when nothing
remains, otherwise join. -/
def fieldsEpilogue (parts : List String) (connective : String)
    (siblings : Nat) : String :=
  let outputQueryParts := parts.filter (fun p => p ≠ "")
  match outputQueryParts with
  | [] => "true"
  | ps => joinWithConnective ps connective siblings

/-- The synthesized right-hand side when `getColumnWhereSql` returned a null
`rhs` (lines 201–209): one `$n` placeholder, or a parenthesized list of
`bindCount` placeholders, numbered from `base + 1`. -/
def placeholderList (base : Nat) (bindCount : Nat) : List String :=
  (List.range bindCount).map fun i => "$" ++ natRepr (base + 1 + i)

def synthRhs (base : Nat) (bindCount : Nat) (sqlComparison : String) : String :=
  if 1 < bindCount ∨ sqlComparison ∈ PARENS_COMPARISONS then
    "(" ++ joinSep ", " (placeholderList base bindCount) ++ ")"
  else "$" ++ natRepr (base + 1)

/-- Result record of `getColumnWhereSql`.  `rhs` distinguishes the JS values
`null` (placeholder synthesis), `undefined` (dropped from the join) and a
string. -/
inductive RhsV : Type where
  | nullR : RhsV
  | undefR : RhsV
  | strR : String → RhsV
  deriving Repr

structure ColSql : Type where
  lhs : Option String
  comparison : Option String
  rhs : RhsV
  values : List JsVal

/-- `formatOrderBy` from `src/utils/misc.js` (a missing direction defaults to
lowercase `asc`; an explicit one is uppercased). -/
def formatOrderBy (fds : FieldDefs) (orderBy : String × Option String) : String :=
  getFieldDbName fds orderBy.1 ++ " " ++
    (match orderBy.2 with
     | none => "asc"
     | some d => asciiUpper d)

/-- The ORDER BY parts loop inside `RecordQuery.getSql`, including the
unknown-key check. -/
def orderByParts (recordName : String) (fds : FieldDefs) :
    List (String × Option String) → Except SqlError (List String)
  | [] => .ok []
  | ob :: rest =>
    if (fds.lookup ob.1).isNone then .error (.fieldNotFound ob.1 recordName)
    else do
      let parts ← orderByParts recordName fds rest
      .ok (formatOrderBy fds ob :: parts)

/-- The SELECT column list of `RecordQuery.getSql` (lines 799–821). -/
def selectSqlOf (fds : FieldDefs) (output : String) (returns : RetVal) : String :=
  if output = "record" then "*"
  else
    let fieldKeys :=
      match returns with
      | .multi ks => ks
      | .single k => [k]
      | .noneR => fds.map fun (kv : String × FieldDef) => kv.1
    joinSep ", " (fieldKeys.map fun k =>
      let fieldDbName := getFieldDbName fds k
      let fieldSelect := quoteIdentifier fieldDbName
      if fieldDbName ≠ k then fieldSelect ++ " as " ++ quoteIdentifier k
      else fieldSelect)

/-! ## The where compiler (`getWhereSql` / `getColumnWhereSql` from
`src/wheres.js`) and SQL generation (`RecordQuery.getSql`).

Each function consumes one unit of fuel per call (the fuel models the JS call
stack; `.fuelExhausted` corresponds to stack exhaustion). -/

mutual

/-- `getWhereSql(conn, recordName, fieldDefinitions, wheres, {comparison,
connective, bindParamsUsed, siblings, lhs})`.  Returns the SQL fragment and
the ordered bound values. -/
def getWhereSql (fuel : Nat) (recordName : String) (fds : FieldDefs)
    (wheres : JsVal) (comparison : Option String) (connective : String)
    (bindParamsUsed : Nat) (siblings : Nat) (lhs : Option String) :
    Except SqlError (String × List JsVal) :=
  match fuel with
  | 0 => .error .fuelExhausted
  | f + 1 =>
    match wheres with
    | .connV isOr _cmp children =>
      -- Grouped handling for an explicit connective.  Note that the
      -- connective's own `comparison` field is NOT read here (the incoming
      -- `comparison` option is threaded instead); it reaches children only
      -- when a parent loop computed `where.comparison || comparison`.
      do
        let (parts, vs) ←
          whereGroupLoop f recordName fds children comparison bindParamsUsed
            (children.length - 1) lhs
        .ok (joinWithConnective parts (connName isOr) siblings, vs)
    | .arrV children =>
      -- Grouped handling for a bare array (implicit AND via the incoming
      -- `connective`, which defaults to `and`).
      do
        let (parts, vs) ←
          whereGroupLoop f recordName fds children comparison bindParamsUsed
            (children.length - 1) lhs
        .ok (joinWithConnective parts connective siblings, vs)
    | w =>
      -- Ungrouped handling.
      match lhs with
      | some k =>
        if isPojoLike w then
          .error (.whereParser ("Where parsing failed for key \"" ++ k ++
            "\". Where object literals are not allowed within values."))
        else do
          let (part?, vs) ←
            entryCompile f recordName fds (some k) w comparison bindParamsUsed 1
          .ok (fieldsEpilogue part?.toList connective siblings, vs)
      | none =>
        match w with
        | .sqlValueV b c q v => do
          let (part?, vs) ←
            entryCompile f recordName fds none (.sqlValueV b c q v) comparison
              bindParamsUsed 1
          .ok (fieldsEpilogue part?.toList connective siblings, vs)
        | w' => do
          let es ← entriesOf w'
          let (parts, vs) ←
            fieldsLoop f recordName fds es comparison bindParamsUsed es.length
          .ok (fieldsEpilogue parts connective siblings, vs)
termination_by structural fuel
/-- The per-child loop of the grouped branch (lines 99–115): each child is
compiled with its own comparison falling back to the incoming one, the
running parameter offset, and the sibling count of the group. -/
def whereGroupLoop (fuel : Nat) (recordName : String) (fds : FieldDefs)
    (children : List JsVal) (comparison : Option String) (bindParamsUsed : Nat)
    (siblingsArg : Nat) (lhs : Option String) :
    Except SqlError (List String × List JsVal) :=
  match fuel with
  | 0 => .error .fuelExhausted
  | f + 1 =>
    match children with
    | [] => .ok ([], [])
    | w :: rest => do
      let (q, vs) ←
        getWhereSql f recordName fds w (jsOr (jsCompOf w) comparison) "and"
          bindParamsUsed siblingsArg lhs
      let (qs, vss) ←
        whereGroupLoop f recordName fds rest comparison
          (bindParamsUsed + vs.length) siblingsArg lhs
      .ok (q :: qs, vs ++ vss)
termination_by structural fuel
/-- The per-child loop of the connective-used-as-a-value branch
(lines 154–171): each child is compiled with `where.comparison` (no fallback
to the connective's own comparison!), the running offset, the connective's
sibling count and the field key as a forced `lhs`. -/
def connValueLoop (fuel : Nat) (recordName : String) (fds : FieldDefs)
    (children : List JsVal) (bindParamsUsed : Nat) (siblingsArg : Nat)
    (lhs : Option String) : Except SqlError (List String × List JsVal) :=
  match fuel with
  | 0 => .error .fuelExhausted
  | f + 1 =>
    match children with
    | [] => .ok ([], [])
    | w :: rest => do
      let (q, vs) ←
        getWhereSql f recordName fds w (jsCompOf w) "and" bindParamsUsed
          siblingsArg lhs
      let (qs, vss) ←
        connValueLoop f recordName fds rest (bindParamsUsed + vs.length)
          siblingsArg lhs
      .ok (q :: qs, vs ++ vss)
termination_by structural fuel
/-- The entries loop of the ungrouped branch (lines 139–215), one entry at a
time. -/
def fieldsLoop (fuel : Nat) (recordName : String) (fds : FieldDefs)
    (entries : List (Option String × JsVal)) (comparison : Option String)
    (bindParamsUsed : Nat) (fieldsLen : Nat) :
    Except SqlError (List String × List JsVal) :=
  match fuel with
  | 0 => .error .fuelExhausted
  | f + 1 =>
    match entries with
    | [] => .ok ([], [])
    | (k, v) :: rest => do
      let (part?, vs) ←
        entryCompile f recordName fds k v comparison bindParamsUsed fieldsLen
      let (parts, vss) ←
        fieldsLoop f recordName fds rest comparison (bindParamsUsed + vs.length)
          fieldsLen
      .ok ((match part? with | some p => p :: parts | none => parts), vs ++ vss)
termination_by structural fuel
/-- One iteration of the entries loop: unknown-key check, undefined skip,
connective-as-value branch, and the regular column branch with text casting
and placeholder synthesis. -/
def entryCompile (fuel : Nat) (recordName : String) (fds : FieldDefs)
    (key : Option String) (value : JsVal) (comparison : Option String)
    (bindParamsUsed : Nat) (fieldsLen : Nat) :
    Except SqlError (Option String × List JsVal) :=
  match fuel with
  | 0 => .error .fuelExhausted
  | f + 1 =>
    let fieldDefinition : Option FieldDef := key.bind fun k => fds.lookup k
    match key, fieldDefinition with
    | some k, none => .error (.fieldNotFound k recordName)
    | _, _ =>
      match value with
      | .undefV =>
        -- Skipped with a console warning; contributes neither a part nor
        -- values.
        .ok (none, [])
      | .connV isOr _cmp children => do
        -- Connective used as a value: the connective's own comparison is
        -- dropped (children are compiled with `where.comparison` only).
        let (parts, vs) ←
          connValueLoop f recordName fds children bindParamsUsed
            (children.length - 1) key
        .ok (some (joinWithConnective parts (connName isOr) (fieldsLen - 1)), vs)
      | v => do
        let col ← getColumnWhereSql f recordName fds key v comparison bindParamsUsed
        let sqlComparison := (jsOr col.comparison (some "=")).getD "="
        if key.isSome ∧ sqlComparison ∈ RHS_ONLY_COMPARISONS then
          .error (.whereParser ("Where parsing failed for key \"" ++
            key.getD "" ++ "\". Comparison requested (" ++ sqlComparison ++
            ") does not support a left hand side."))
        else
          let castText : Bool :=
            TEXT_COMPARISONS.contains sqlComparison &&
              (match fieldDefinition with
               | some fd => fd.type != "text"
               | none => false)
          let sqlLhs : Option String :=
            if castText then col.lhs.map (fun s => s ++ "::text") else col.lhs
          let rhs? : Option String :=
            match col.rhs with
            | .nullR => some (synthRhs bindParamsUsed col.values.length sqlComparison)
            | .undefR => none
            | .strR s => some s
          let queryPart :=
            joinSep " " (sqlLhs.toList ++ [sqlComparison] ++ rhs?.toList)
          .ok (some queryPart, col.values)
termination_by structural fuel
/-- `getColumnWhereSql(conn, recordName, fieldDefinitions, key, value,
{comparison, bindParamsUsed})` (lines 223–291). -/
def getColumnWhereSql (fuel : Nat) (_recordName : String) (fds : FieldDefs)
    (key : Option String) (value : JsVal) (comparison : Option String)
    (bindParamsUsed : Nat) : Except SqlError ColSql :=
  match fuel with
  | 0 => .error .fuelExhausted
  | f + 1 =>
    let lhs0 : Option String := key.map fun k => quoteIdentifier (getFieldDbName fds k)
    -- `!outputComparison || outputComparison === comparisonDefs.equal`
    let defaultish : Bool := comparison == none || comparison == some "="
    match value with
    | .nullV =>
      if defaultish then .ok ⟨lhs0, some "IS", .strR "NULL", []⟩
      else
        -- falls through to the final catch-all branch of the source:
        -- `null` is bound as an ordinary value under the overriding comparison
        .ok ⟨lhs0, some ((jsOr comparison (some "=")).getD "="), .nullR, [.nullV]⟩
    | .notNullV =>
      if defaultish then .ok ⟨lhs0, some "IS NOT", .strR "NULL", []⟩
      else
        -- the `typeof value === 'symbol'` branch: rhs is the description
        .ok ⟨lhs0, comparison, .strR "NOT NULL", []⟩
    | .nowV => .ok ⟨lhs0, comparison, .strR "NOW()", []⟩
    | .symV d => .ok ⟨lhs0, comparison, .strR d, []⟩
    | .arrV xs =>
      if xs.isEmpty then
        -- Explicitly match no rows instead of erroring on an empty IN.
        .ok ⟨some "true", some "=", .strR "false", []⟩
      else .ok ⟨lhs0, some "IN", .nullR, xs⟩
    | .setV xs =>
      if xs.isEmpty then
        .ok ⟨some "true", some "=", .strR "false", []⟩
      else .ok ⟨lhs0, some "IN", .nullR, xs⟩
    | .sqlValueV bind cmp quote v =>
      let outputComparison := (jsOr cmp (some "=")).getD "="
      let actual := sqlValueGetValue quote v
      let isParens := outputComparison ∈ PARENS_COMPARISONS
      if bind then
        match actual with
        | .arrV xs =>
          if isParens then .ok ⟨lhs0, some outputComparison, .nullR, xs⟩
          else .ok ⟨lhs0, some outputComparison, .nullR, [.arrV xs]⟩
        | .setV xs =>
          if isParens then .ok ⟨lhs0, some outputComparison, .nullR, xs⟩
          else .ok ⟨lhs0, some outputComparison, .nullR, [.setV xs]⟩
        | .queryV qq => do
          let (qt, qv) ← querySql f qq false true bindParamsUsed
          -- the sub-query pack carries no comparison of its own, so the
          -- wrapped value's comparison stands
          .ok ⟨lhs0, some outputComparison, .strR ("(" ++ qt ++ ")"), qv⟩
        | a => .ok ⟨lhs0, some outputComparison, .nullR, [a]⟩
      else
        if isParens then do
          let s ← jsTemplateE actual
          .ok ⟨lhs0, some outputComparison, .strR ("(" ++ s ++ ")"), []⟩
        else
          match actual with
          | .nullV => .ok ⟨lhs0, some outputComparison, .nullR, []⟩
          | .undefV => .ok ⟨lhs0, some outputComparison, .undefR, []⟩
          | a => do
            let s ← jsTemplateE a
            .ok ⟨lhs0, some outputComparison, .strR s, []⟩
    | .queryV qq => do
      let (qt, qv) ← querySql f qq false true bindParamsUsed
      -- `sqlPack.comparison || comparisonDefs.in`: the query pack has none
      .ok ⟨lhs0, some "IN", .strR ("(" ++ qt ++ ")"), qv⟩
    | v' =>
      -- Regular bound value (also covers plain objects, which JS would
      -- bind as a single parameter).
      .ok ⟨lhs0, some ((jsOr comparison (some "=")).getD "="), .nullR, [v']⟩
termination_by structural fuel
/-- `RecordQuery.getSql(conn, {count, isSubquery, bindParamsUsed})`
(lines 766–838). -/
def querySql (fuel : Nat) (q : Query) (count : Bool) (isSubquery : Bool)
    (bindParamsUsed : Nat) : Except SqlError (String × List JsVal) :=
  match fuel with
  | 0 => .error .fuelExhausted
  | f + 1 => do
    let (wq, wvs) ←
      getWhereSql f q.recordName q.fields (.arrV q.wheres) none "and"
        bindParamsUsed 0 none
    let hasLimit := q.limit.isSome
    let hasOffset := q.offset.isSome
    let limitString : Option String :=
      if hasLimit ∨ hasOffset then
        some (joinSep " "
          ((q.limit.map fun n => "LIMIT " ++ intRepr n).toList ++
           (q.offset.map fun n => "OFFSET " ++ intRepr n).toList))
      else none
    let canSkipOrderBy := isSubquery ∧ ¬hasLimit ∧ ¬hasOffset
    let orderByString : Option String ←
      if canSkipOrderBy then pure none
      else do
        let obs := if q.orderBys.isEmpty then q.defaultOrderBys else q.orderBys
        let parts ← orderByParts q.recordName q.fields obs
        pure (some ("ORDER BY " ++ joinSep ", " parts))
    let selectSql := selectSqlOf q.fields q.output q.returns
    let pieces : List String :=
      (([some ("SELECT " ++ selectSql ++ " FROM"),
         some (quoteIdentifier q.table)] ++
        [(if wq ≠ "" then some "WHERE" else none),
         (if wq ≠ "" then some wq else none)] ++
        [orderByString, limitString]).filterMap id)
    let query := joinSep " " pieces
    let query := if count then "SELECT count(*)::int FROM (" ++ query ++ ") a"
      else query
    .ok (query, wvs)
termination_by structural fuel

end

/-! ## The `RecordQuery` option/state machine (`src/index.js`) -/

/-- The mutable option/flag state of a `RecordQuery` instance relevant to the
chainable setters and the iteration protocol.  `rows` is the buffered result
array (opaque row payloads). -/
structure QState : Type where
  output : String := "record"
  returns : RetVal := .noneR
  stream : Bool := false
  isLoaded : Bool := false
  rows : List String := []
  limit : Option Int := none
  offset : Option Int := none
  deriving Repr, DecidableEq

/-- The state of a freshly-constructed `RecordQuery`. -/
def initialQState : QState := {}

/-- `outputType[type]` membership (`src/constants.js`). -/
def validOutputType (t : String) : Bool :=
  t == "object" || t == "record" || t == "value"

/-- `getImpliedOutput(returns)`: arrays imply `object`, anything else `value`. -/
def getImpliedOutput : RetVal → String
  | .multi _ => "object"
  | _ => "value"

/-- `RecordQuery.validateReturns(returns, output)` (lines 388–398).  The
third `impliedOutput` parameter is never passed by the source's call sites
and is omitted.  `output` is always a nonempty string in the model, so the
`!output` early return cannot fire. -/
def validateReturns (returns : RetVal) (output : String) :
    Except SqlError Unit :=
  if returns = .noneR then .ok ()
  else
    let defaultedImpliedOutput := getImpliedOutput returns
    if output ≠ defaultedImpliedOutput then
      .error (.incompatibleOutputSpecified defaultedImpliedOutput)
    else .ok ()

/-- `RecordQuery.output(type)` (lines 434–450). -/
def outputM (t : String) (st : QState) : Except SqlError QState :=
  if ¬ validOutputType t then .error (.invalidOutputType t)
  else do
    if st.returns ≠ .noneR then validateReturns st.returns t else pure ()
    let oldOutput := st.output
    let st' := {st with output := t}
    .ok (if t ≠ oldOutput then {st' with isLoaded := false} else st')

/-- `RecordQuery.returns(keyOrKeys)` (lines 458–469).  Sets are converted to
arrays by the caller of this model.  JS compares the old and new selector by
reference (`!==`); the model compares structurally — for strings and the
absent selector the two coincide, and no claim depends on the array case. -/
def returnsM (k : RetVal) (st : QState) : Except SqlError QState :=
  let st1 := {st with returns := k,
                      isLoaded := if k ≠ st.returns then false else st.isLoaded}
  outputM (getImpliedOutput k) st1

/-- `RecordQuery.limit(limit)` (lines 508–518): change detection is
`(limit ?? null) !== (this._limit ?? null)`. -/
def limitM (l : Option Int) (st : QState) : QState :=
  let isChanged := l ≠ st.limit
  let st' := {st with limit := l}
  if isChanged then {st' with isLoaded := false} else st'

/-- `RecordQuery.offset(offset)` (lines 526–536): change detection is
`(offset ?? 0) !== (this._offset ?? 0)` — the null default is `0`, unlike
`limit`. -/
def offsetM (o : Option Int) (st : QState) : QState :=
  let isChanged := o.getD 0 ≠ st.offset.getD 0
  let st' := {st with offset := o}
  if isChanged then {st' with isLoaded := false} else st'

/-- The Array-protocol pass-through installed on `RecordQuery.prototype`
(lines 876–887): in stream mode it throws; otherwise it hands the current
`rows` buffer to `Array.prototype[key]` regardless of the loaded flag. -/
def arrayPassthrough (key : String) (st : QState) :
    Except SqlError (List String) :=
  if st.stream then
    .error (.unavailableInStreamMode
      ("Array function " ++ key ++ " is not available in stream mode."))
  else .ok st.rows

/-- `RecordQuery[Symbol.iterator]` (lines 840–849): synchronous iteration
requires non-stream mode and a loaded query. -/
def symbolIterator (st : QState) : Except SqlError (List String) :=
  if st.stream then
    .error (.unavailableInStreamMode
      "RecordQuery with stream=true cannot be synchronously iterated, used \"for await\".")
  else if ¬ st.isLoaded then .error .queryNotLoadedIteration
  else .ok st.rows

/-! ## Engine semantics of `count()` -/

/-- Modelled from the spec: the external database engine's row arithmetic for
the emitted count statement.  `RecordQuery.count()` sends
`SELECT count(*)::int FROM (<inner SELECT, including its ORDER BY/LIMIT/OFFSET
clauses>) a` (see `querySql` with `count := true`); per the spec's contract
("LIMIT/OFFSET clauses appended verbatim", standard engine semantics), the
inner SELECT yields `matching` WHERE-satisfying rows reduced by OFFSET and
capped by LIMIT, and the outer `count(*)` returns the size of that inner
result. -/
def innerResultCount (limit offset : Option Int) (matching : Nat) : Nat :=
  let afterOffset := matching - (offset.map Int.toNat).getD 0
  match limit with
  | none => afterOffset
  | some l => min l.toNat afterOffset

/-- The scalar returned by `RecordQuery.count()` on a query whose WHERE
conditions match `matching` rows of the table. -/
def countScalar (q : Query) (matching : Nat) : Nat :=
  innerResultCount q.limit q.offset matching

/-! ## Small helper lemmas about the join/epilogue plumbing -/

theorem string_eq_empty_of_length {s : String} (h : s.length = 0) : s = "" := by
  apply String.ext
  have : s.data.length = 0 := h
  simpa using List.length_eq_zero.mp this

theorem string_append_ne_empty_left {s t : String} (h : s ≠ "") : s ++ t ≠ "" := by
  intro hcon
  have hl := congrArg String.length hcon
  simp only [String.length_append] at hl
  have h0 : ("" : String).length = 0 := by decide
  exact h (string_eq_empty_of_length (by omega))

theorem quoteIdentifier_ne_empty (s : String) : quoteIdentifier s ≠ "" := by
  intro hcon
  have hl := congrArg String.length hcon
  simp only [quoteIdentifier, String.length_append] at hl
  have h1 : ("\"" : String).length = 1 := by decide
  have h0 : ("" : String).length = 0 := by decide
  omega

theorem joinWithConnective_single (s : String) (conn : String) (sib : Nat) :
    joinWithConnective [s] conn sib = s := by
  simp [joinWithConnective, joinSep]

@[simp] theorem string_append_eq_empty_iff (s t : String) :
    s ++ t = "" ↔ s = "" ∧ t = "" := by
  constructor
  · intro h
    have hd := congrArg String.data h
    simp only [String.data_append] at hd
    have h1 : s.data = [] ∧ t.data = [] := by
      have : s.data ++ t.data = [] := hd
      simpa using this
    exact ⟨String.ext h1.1, String.ext h1.2⟩
  · rintro ⟨rfl, rfl⟩
    rfl

@[simp] theorem quoteIdentifier_eq_empty_iff (s : String) :
    quoteIdentifier s = "" ↔ False :=
  ⟨fun h => quoteIdentifier_ne_empty s h, False.elim⟩

theorem fieldsEpilogue_single (s : String) (hs : s ≠ "") (conn : String)
    (sib : Nat) : fieldsEpilogue [s] conn sib = s := by
  simp [fieldsEpilogue, hs, joinWithConnective, joinSep]

/-! ## Claim C7: empty sequences compile to an always-false predicate -/

/-- **C7.** For every field key `f` present in the registry, compiling
`{f: []}` — and likewise `{f: new Set()}` — yields the always-false fragment
`true = false` with zero bound values, and the fragment does not contain an
empty `IN ()` list. -/
theorem c7_empty_sequence_always_false
    (fuel : Nat) (rn : String) (fds : FieldDefs) (f : String) (fd : FieldDef)
    (p sib : Nat) (hf : fds.lookup f = some fd) :
    getWhereSql (fuel + 4) rn fds (.objV [(f, .arrV [])]) none "and" p sib none =
        .ok ("true = false", []) ∧
    getWhereSql (fuel + 4) rn fds (.objV [(f, .setV [])]) none "and" p sib none =
        .ok ("true = false", []) ∧
    ¬ List.IsInfix "IN ()".data "true = false".data := by
  refine ⟨?_, ?_, by decide⟩ <;>
    simp [getWhereSql, entriesOf, fieldsLoop, entryCompile, getColumnWhereSql,
      hf, jsOr, RHS_ONLY_COMPARISONS, TEXT_COMPARISONS, joinSep, fieldsEpilogue,
      joinWithConnective]

/-- Witness instantiating `c7_empty_sequence_always_false`. -/
theorem c7_empty_sequence_always_false_witness :
    getWhereSql 4 "R" [("f", {})] (.objV [("f", .arrV [])]) none "and" 0 0 none =
      .ok ("true = false", []) :=
  (c7_empty_sequence_always_false 0 "R" [("f", {})] "f" {} 0 0 rfl).1

/-! ## Claim C8: `null` vs the NOT-NULL sentinel -/

/-- **C8.** With no comparison override, `{f: null}` compiles to
`"<column>" IS NULL` and `{f: NOT_NULL}` to `"<column>" IS NOT NULL`, each
with zero bound values; the two fragments are never equal. -/
theorem c8_null_vs_not_null_sentinel
    (fuel : Nat) (rn : String) (fds : FieldDefs) (f : String) (fd : FieldDef)
    (p sib : Nat) (hf : fds.lookup f = some fd) :
    getWhereSql (fuel + 4) rn fds (.objV [(f, .nullV)]) none "and" p sib none =
        .ok (quoteIdentifier (getFieldDbName fds f) ++ " IS NULL", []) ∧
    getWhereSql (fuel + 4) rn fds (.objV [(f, .notNullV)]) none "and" p sib none =
        .ok (quoteIdentifier (getFieldDbName fds f) ++ " IS NOT NULL", []) ∧
    quoteIdentifier (getFieldDbName fds f) ++ " IS NULL" ≠
      quoteIdentifier (getFieldDbName fds f) ++ " IS NOT NULL" := by
  have hne1 : quoteIdentifier (getFieldDbName fds f) ++ " IS NULL" ≠ "" :=
    string_append_ne_empty_left (quoteIdentifier_ne_empty _)
  have hne2 : quoteIdentifier (getFieldDbName fds f) ++ " IS NOT NULL" ≠ "" :=
    string_append_ne_empty_left (quoteIdentifier_ne_empty _)
  refine ⟨?_, ?_, ?_⟩
  · simp [getWhereSql, entriesOf, fieldsLoop, entryCompile, getColumnWhereSql,
      hf, jsOr, RHS_ONLY_COMPARISONS, TEXT_COMPARISONS, joinSep, fieldsEpilogue,
      joinWithConnective, hne1, String.append_assoc]
  · simp [getWhereSql, entriesOf, fieldsLoop, entryCompile, getColumnWhereSql,
      hf, jsOr, RHS_ONLY_COMPARISONS, TEXT_COMPARISONS, joinSep, fieldsEpilogue,
      joinWithConnective, hne2, String.append_assoc]
  · intro hcon
    have := congrArg String.length hcon
    simp [String.length_append] at this
    exact absurd this (by decide)

/-- Witness instantiating `c8_null_vs_not_null_sentinel`. -/
theorem c8_null_vs_not_null_sentinel_witness :
    getWhereSql 4 "R" [("f", {})] (.objV [("f", .nullV)]) none "and" 0 0 none =
      .ok ("\"f\" IS NULL", []) :=
  (c8_null_vs_not_null_sentinel 0 "R" [("f", {})] "f" {} 0 0 rfl).1

/-! ## Claim C10: Array-protocol pass-through never raises QueryNotLoaded -/

/-- **C10.** In non-stream mode the Array-protocol pass-through methods never
raise: whatever the loaded flag, they return the current rows buffer (which is
empty on a fresh instance); only synchronous `Symbol.iterator` iteration
checks the loaded flag and raises `QueryNotLoadedIteration`. -/
theorem c10_array_passthrough_no_loaded_check (st : QState) (key : String)
    (hstream : st.stream = false) :
    arrayPassthrough key st = .ok st.rows ∧
    initialQState.rows = [] ∧
    (st.isLoaded = false → symbolIterator st = .error .queryNotLoadedIteration) := by
  refine ⟨?_, rfl, ?_⟩
  · simp [arrayPassthrough, hstream]
  · intro hload
    simp [symbolIterator, hstream, hload]

/-- Witness instantiating `c10_array_passthrough_no_loaded_check` on a fresh
(unloaded) instance. -/
theorem c10_array_passthrough_no_loaded_check_witness :
    arrayPassthrough "map" initialQState = .ok initialQState.rows ∧
    initialQState.rows = [] ∧
    (initialQState.isLoaded = false →
      symbolIterator initialQState = .error .queryNotLoadedIteration) :=
  c10_array_passthrough_no_loaded_check initialQState "map" rfl

/-! ## Claim C5: limit/offset loaded-flag invalidation -/

/-- Counterexample to **C5** as stated: the claim says clearing `offset` to
null from a non-null previous value always invalidates the loaded state, but
`offset` compares with `?? 0`, so clearing from a previous value of `0`
leaves the loaded flag untouched (and likewise `offset(0)` from null is not
treated as a change). -/
theorem c5_offset_zero_null_counterexample :
    (({ offset := some 0, isLoaded := true } : QState).offset = some 0 ∧
      ({ offset := some 0, isLoaded := true } : QState).offset ≠ none) ∧
    (offsetM none { offset := some 0, isLoaded := true }).offset = none ∧
    (offsetM none { offset := some 0, isLoaded := true }).isLoaded = true ∧
    (offsetM (some 0) { offset := none, isLoaded := true }).offset = some 0 ∧
    (offsetM (some 0) { offset := none, isLoaded := true }).isLoaded = true := by
  refine ⟨⟨rfl, by decide⟩, rfl, rfl, rfl, rfl⟩

/-- **C5 (amended).** `limit(n)` behaves exactly as claimed: a different
value (including clearing to null from non-null) sets the loaded flag to
false and an unchanged value leaves the state untouched.  For `offset(n)`,
"different" is judged after defaulting null to `0`: transitions between null
and `0` never invalidate; every other change does. -/
theorem c5_limit_offset_invalidation (st : QState) (l o : Option Int) :
    ((limitM l st).limit = l ∧
      (l ≠ st.limit → (limitM l st).isLoaded = false) ∧
      (l = st.limit → limitM l st = st)) ∧
    ((offsetM o st).offset = o ∧
      (o.getD 0 ≠ st.offset.getD 0 → (offsetM o st).isLoaded = false) ∧
      (o.getD 0 = st.offset.getD 0 → (offsetM o st).isLoaded = st.isLoaded)) := by
  refine ⟨⟨?_, ?_, ?_⟩, ⟨?_, ?_, ?_⟩⟩
  · by_cases h : l = st.limit <;> simp [limitM, h]
  · intro h; simp [limitM, h]
  · intro h; subst h; simp [limitM]
  · by_cases h : o.getD 0 = st.offset.getD 0 <;> simp [offsetM, h]
  · intro h; simp [offsetM, h]
  · intro h; simp [offsetM, h]

/-- Witness instantiating `c5_limit_offset_invalidation`. -/
theorem c5_limit_offset_invalidation_witness :
    ((limitM (some 5) initialQState).limit = some 5 ∧
      (some 5 ≠ initialQState.limit → (limitM (some 5) initialQState).isLoaded = false) ∧
      (some 5 = initialQState.limit → limitM (some 5) initialQState = initialQState)) ∧
    ((offsetM (some 3) initialQState).offset = some 3 ∧
      ((some 3 : Option Int).getD 0 ≠ initialQState.offset.getD 0 →
        (offsetM (some 3) initialQState).isLoaded = false) ∧
      ((some 3 : Option Int).getD 0 = initialQState.offset.getD 0 →
        (offsetM (some 3) initialQState).isLoaded = initialQState.isLoaded)) :=
  c5_limit_offset_invalidation initialQState (some 5) (some 3)

/-! ## Claim C4: output-shape vs returns-selector compatibility -/

/-- Counterexample to the second half of **C4**: requesting the scalar
(`value`) output shape first and then setting a multi-key `returns` selector
does NOT raise `IncompatibleOutputSpecified` — `returns()` re-implies the
`object` shape and silently overwrites the earlier request. -/
theorem c4_value_then_multi_returns_counterexample :
    (outputM "value" initialQState >>= returnsM (.multi ["a", "b"])) =
      .ok { output := "object", returns := .multi ["a", "b"], isLoaded := false } := by
  rfl

/-- **C4 (amended).** Setting a multi-key `returns` and then requesting the
scalar shape raises `IncompatibleOutputSpecified`; in the reverse order no
error is raised — the `returns()` call succeeds and re-implies the `object`
output shape. -/
theorem c4_returns_output_compat :
    (∀ (st st' : QState) (ks : List String),
      returnsM (.multi ks) st = .ok st' →
        outputM "value" st' = .error (.incompatibleOutputSpecified "object")) ∧
    (∀ (st : QState) (ks : List String),
      ∃ st'', returnsM (.multi ks) st = .ok st'' ∧ st''.output = "object" ∧
        st''.returns = .multi ks) := by
  constructor
  · intro st st' ks h
    have hret : st'.returns = .multi ks := by
      simp [returnsM, outputM, validOutputType, getImpliedOutput,
        validateReturns] at h
      split at h <;> (rw [← h])
    simp [outputM, validOutputType, hret, validateReturns, getImpliedOutput]
  · intro st ks
    refine ⟨_, rfl, ?_, ?_⟩ <;>
      · simp only [returnsM, outputM, validOutputType, getImpliedOutput,
          validateReturns]
        split <;> rfl

/-- Witness instantiating `c4_returns_output_compat` at concrete states. -/
theorem c4_returns_output_compat_witness :
    outputM "value" { initialQState with
        output := "object", returns := .multi ["a", "b"], isLoaded := false } =
      .error (.incompatibleOutputSpecified "object") :=
  c4_returns_output_compat.1 initialQState _ ["a", "b"] (by rfl)

/-! ## Claim C1: `count()` vs limit/offset -/

/-- The query used to refute C1: no wheres, primary key `id`, `limit 1`. -/
def c1Query : Query :=
  .mk "R" "tbl" [("id", {})] [] [] [("id", some "asc")] (some 1) none "record"
    .noneR

/-- Counterexample to **C1**: on a query with `limit(1)` whose WHERE
conditions match 2 rows, `count()` returns 1, not 2 — the generated count
statement wraps the inner SELECT *including its LIMIT clause*, so the outer
`count(*)` counts the limited rows. -/
theorem c1_count_limit_counterexample :
    countScalar c1Query 2 = 1 ∧ (1 : Nat) ≠ 2 ∧ c1Query.limit = some 1 ∧
    querySql 9 c1Query true false 0 =
      .ok ("SELECT count(*)::int FROM (SELECT * FROM \"tbl\" ORDER BY id ASC LIMIT 1) a",
        []) := by
  refine ⟨rfl, by decide, rfl, by rfl⟩

/-- **C1 (amended).** When neither limit nor offset is set, `count()` returns
exactly the number of WHERE-matching rows; with a limit or offset set, the
limit/offset apply to the counted set. -/
theorem c1_count_unlimited (q : Query) (matching : Nat)
    (hl : q.limit = none) (ho : q.offset = none) :
    countScalar q matching = matching := by
  simp [countScalar, innerResultCount, hl, ho]

/-- Witness instantiating `c1_count_unlimited`. -/
theorem c1_count_unlimited_witness :
    countScalar (.mk "R" "tbl" [("id", {})] [] [] [("id", some "asc")]
      none none "record" .noneR) 7 = 7 :=
  c1_count_unlimited _ 7 rfl rfl

/-! ## Step equations for the fuel-passing compiler (all definitional) -/

theorem fieldsLoop_nil_eq (f : Nat) (rn : String) (fds : FieldDefs)
    (cmp : Option String) (p fl : Nat) :
    fieldsLoop (f + 1) rn fds [] cmp p fl = .ok ([], []) := rfl

theorem fieldsLoop_cons_eq (f : Nat) (rn : String) (fds : FieldDefs)
    (k : Option String) (v : JsVal) (rest : List (Option String × JsVal))
    (cmp : Option String) (p fl : Nat) :
    fieldsLoop (f + 1) rn fds ((k, v) :: rest) cmp p fl = (do
      let (part?, vs) ← entryCompile f rn fds k v cmp p fl
      let (parts, vss) ← fieldsLoop f rn fds rest cmp (p + vs.length) fl
      Except.ok ((match part? with | some s => s :: parts | none => parts),
        vs ++ vss)) := rfl

theorem whereGroupLoop_nil_eq (f : Nat) (rn : String) (fds : FieldDefs)
    (cmp : Option String) (p sib : Nat) (lhs : Option String) :
    whereGroupLoop (f + 1) rn fds [] cmp p sib lhs = .ok ([], []) := rfl

theorem whereGroupLoop_cons_eq (f : Nat) (rn : String) (fds : FieldDefs)
    (w : JsVal) (rest : List JsVal) (cmp : Option String) (p sib : Nat)
    (lhs : Option String) :
    whereGroupLoop (f + 1) rn fds (w :: rest) cmp p sib lhs = (do
      let (q, vs) ←
        getWhereSql f rn fds w (jsOr (jsCompOf w) cmp) "and" p sib lhs
      let (qs, vss) ← whereGroupLoop f rn fds rest cmp (p + vs.length) sib lhs
      Except.ok (q :: qs, vs ++ vss)) := rfl

theorem connValueLoop_nil_eq (f : Nat) (rn : String) (fds : FieldDefs)
    (p sib : Nat) (lhs : Option String) :
    connValueLoop (f + 1) rn fds [] p sib lhs = .ok ([], []) := rfl

theorem connValueLoop_cons_eq (f : Nat) (rn : String) (fds : FieldDefs)
    (w : JsVal) (rest : List JsVal) (p sib : Nat) (lhs : Option String) :
    connValueLoop (f + 1) rn fds (w :: rest) p sib lhs = (do
      let (q, vs) ← getWhereSql f rn fds w (jsCompOf w) "and" p sib lhs
      let (qs, vss) ← connValueLoop f rn fds rest (p + vs.length) sib lhs
      Except.ok (q :: qs, vs ++ vss)) := rfl

theorem getWhereSql_connV_eq (f : Nat) (rn : String) (fds : FieldDefs)
    (isOr : Bool) (c : Option String) (children : List JsVal)
    (cmp : Option String) (conn : String) (p sib : Nat)
    (lhs : Option String) :
    getWhereSql (f + 1) rn fds (.connV isOr c children) cmp conn p sib lhs = (do
      let (parts, vs) ←
        whereGroupLoop f rn fds children cmp p (children.length - 1) lhs
      Except.ok (joinWithConnective parts (connName isOr) sib, vs)) := rfl

theorem getWhereSql_arrV_eq (f : Nat) (rn : String) (fds : FieldDefs)
    (children : List JsVal) (cmp : Option String) (conn : String)
    (p sib : Nat) (lhs : Option String) :
    getWhereSql (f + 1) rn fds (.arrV children) cmp conn p sib lhs = (do
      let (parts, vs) ←
        whereGroupLoop f rn fds children cmp p (children.length - 1) lhs
      Except.ok (joinWithConnective parts conn sib, vs)) := rfl

theorem querySql_succ_eq (f : Nat) (q : Query) (count isSubquery : Bool)
    (p : Nat) :
    querySql (f + 1) q count isSubquery p = (do
      let (wq, wvs) ←
        getWhereSql f q.recordName q.fields (.arrV q.wheres) none "and" p 0 none
      let hasLimit := q.limit.isSome
      let hasOffset := q.offset.isSome
      let limitString : Option String :=
        if hasLimit ∨ hasOffset then
          some (joinSep " "
            ((q.limit.map fun n => "LIMIT " ++ intRepr n).toList ++
             (q.offset.map fun n => "OFFSET " ++ intRepr n).toList))
        else none
      let canSkipOrderBy := isSubquery ∧ ¬hasLimit ∧ ¬hasOffset
      let orderByString : Option String ←
        if canSkipOrderBy then pure none
        else do
          let obs := if q.orderBys.isEmpty then q.defaultOrderBys else q.orderBys
          let parts ← orderByParts q.recordName q.fields obs
          pure (some ("ORDER BY " ++ joinSep ", " parts))
      let selectSql := selectSqlOf q.fields q.output q.returns
      let pieces : List String :=
        (([some ("SELECT " ++ selectSql ++ " FROM"),
           some (quoteIdentifier q.table)] ++
          [(if wq ≠ "" then some "WHERE" else none),
           (if wq ≠ "" then some wq else none)] ++
          [orderByString, limitString]).filterMap id)
      let query := joinSep " " pieces
      let query := if count then "SELECT count(*)::int FROM (" ++ query ++ ") a"
        else query
      Except.ok (query, wvs)) := rfl

/-! ## Claim C9: empty top-level where lists and the `true` fallback -/

/-- The entries loop maps all-undefined entries to no parts and no values
(provided it returns at all — unknown keys or fuel exhaustion error out). -/
theorem fieldsLoop_all_undef
    (entries : List (Option String × JsVal)) :
    ∀ (fuel : Nat) (rn : String) (fds : FieldDefs) (cmp : Option String)
      (p fl : Nat) (out : List String × List JsVal),
      (∀ e ∈ entries, e.2 = JsVal.undefV) →
      fieldsLoop fuel rn fds entries cmp p fl = .ok out → out = ([], []) := by
  induction entries with
  | nil =>
    intro fuel rn fds cmp p fl out _ h
    cases fuel with
    | zero => simp [fieldsLoop] at h
    | succ f => simpa [fieldsLoop_nil_eq] using h.symm
  | cons e rest ih =>
    intro fuel rn fds cmp p fl out hundef h
    cases fuel with
    | zero => simp [fieldsLoop] at h
    | succ f =>
      obtain ⟨k?, v⟩ := e
      have hv : v = JsVal.undefV := hundef (k?, v) (List.mem_cons_self _ _)
      subst hv
      rw [fieldsLoop_cons_eq] at h
      rcases hec : entryCompile f rn fds k? JsVal.undefV cmp p fl
        with e1 | ⟨part?, vs⟩
      · rw [hec] at h
        simp at h
      · have hpv : part? = none ∧ vs = [] := by
          cases f with
          | zero => simp [entryCompile] at hec
          | succ f2 =>
            cases k? with
            | none =>
              simp [entryCompile] at hec
              obtain ⟨h1, h2⟩ := hec
              subst h1
              subst h2
              exact ⟨rfl, rfl⟩
            | some k =>
              rcases hlk : fds.lookup k with _ | fd
              · simp [entryCompile, hlk] at hec
              · simp [entryCompile, hlk] at hec
                obtain ⟨h1, h2⟩ := hec
                subst h1
                subst h2
                exact ⟨rfl, rfl⟩
        obtain ⟨rfl, rfl⟩ := hpv
        rw [hec] at h
        simp at h
        rcases hrest : fieldsLoop f rn fds rest cmp p fl with e2 | out2
        · simp [hrest] at h
        · have hout2 := ih f rn fds cmp p fl out2
            (fun x hx => hundef x (List.mem_cons_of_mem _ hx)) hrest
          subst hout2
          simp [hrest] at h
          exact h.symm

theorem getWhereSql_objV_eq (f : Nat) (rn : String) (fds : FieldDefs)
    (entries : List (String × JsVal)) (cmp : Option String) (conn : String)
    (p sib : Nat) :
    getWhereSql (f + 1) rn fds (.objV entries) cmp conn p sib none = (do
      let es ← entriesOf (.objV entries)
      let (parts, vs) ← fieldsLoop f rn fds es cmp p es.length
      Except.ok (fieldsEpilogue parts conn sib, vs)) := rfl

/-- A group with no children compiles to the empty fragment with no values
(never to the `true` fallback). -/
theorem getWhereSql_empty_group (fuel : Nat) (rn : String) (fds : FieldDefs)
    (w : JsVal) (cmp : Option String) (conn : String) (p sib : Nat)
    (lhs : Option String) (out : String × List JsVal)
    (hw : w = JsVal.arrV [] ∨ ∃ b c, w = JsVal.connV b c [])
    (h : getWhereSql fuel rn fds w cmp conn p sib lhs = .ok out) :
    out = ("", []) := by
  rcases hw with rfl | ⟨b, c, rfl⟩ <;>
  · cases fuel with
    | zero => simp [getWhereSql] at h
    | succ f =>
      cases f with
      | zero => simp [getWhereSql, whereGroupLoop] at h
      | succ f2 =>
        simp [getWhereSql_arrV_eq, getWhereSql_connV_eq, whereGroupLoop_nil_eq,
          joinWithConnective, joinSep] at h
        exact h.symm

theorem whereGroupLoop_nil_ok (fuel : Nat) (rn : String) (fds : FieldDefs)
    (cmp : Option String) (p sib : Nat) (lhs : Option String)
    (out : List String × List JsVal)
    (h : whereGroupLoop fuel rn fds [] cmp p sib lhs = .ok out) :
    out = ([], []) := by
  cases fuel with
  | zero => simp [whereGroupLoop] at h
  | succ f => simpa [whereGroupLoop_nil_eq] using h.symm

/-- A top-level where list holding a single empty connective group still
compiles to the empty fragment. -/
theorem getWhereSql_single_empty_group (fuel : Nat) (rn : String)
    (fds : FieldDefs) (b : Bool) (c : Option String) (cmp : Option String)
    (conn : String) (p sib : Nat) (lhs : Option String)
    (out : String × List JsVal)
    (h : getWhereSql fuel rn fds (.arrV [.connV b c []]) cmp conn p sib lhs =
      .ok out) : out = ("", []) := by
  cases fuel with
  | zero => simp [getWhereSql] at h
  | succ f =>
    rw [getWhereSql_arrV_eq] at h
    rcases hloop : whereGroupLoop f rn fds [.connV b c []] cmp p
        (List.length [JsVal.connV b c []] - 1) lhs with e1 | out2
    · rw [hloop] at h
      simp at h
    · have hout2 : out2 = ([""], []) := by
        cases f with
        | zero => simp [whereGroupLoop] at hloop
        | succ f2 =>
          rw [whereGroupLoop_cons_eq] at hloop
          rcases hg : getWhereSql f2 rn fds (.connV b c [])
              (jsOr (jsCompOf (.connV b c [])) cmp) "and" p
              (List.length [JsVal.connV b c []] - 1) lhs with e2 | out3
          · rw [hg] at hloop
            simp at hloop
          · have h3 := getWhereSql_empty_group f2 rn fds _ _ _ p _ lhs out3
              (Or.inr ⟨b, c, rfl⟩) hg
            subst h3
            rw [hg] at hloop
            simp at hloop
            rcases hrest : whereGroupLoop f2 rn fds [] cmp p 0 lhs
              with e3 | out4
            · simp [hrest] at hloop
            · have h4 := whereGroupLoop_nil_ok _ _ _ _ _ _ _ _ hrest
              subst h4
              simp [hrest] at hloop
              exact hloop.symm
      subst hout2
      rw [hloop] at h
      simp [joinWithConnective, joinSep] at h
      exact h.symm

/-- A field-map node all of whose entries are `undefined` compiles to the
literal `true` fallback with no values. -/
theorem getWhereSql_objV_all_undef (fuel : Nat) (rn : String)
    (fds : FieldDefs) (entries : List (String × JsVal)) (cmp : Option String)
    (conn : String) (p sib : Nat) (out : String × List JsVal)
    (hund : ∀ e ∈ entries, e.2 = JsVal.undefV)
    (h : getWhereSql fuel rn fds (.objV entries) cmp conn p sib none = .ok out) :
    out = ("true", []) := by
  cases fuel with
  | zero => simp [getWhereSql] at h
  | succ f =>
    rw [getWhereSql_objV_eq] at h
    simp only [entriesOf, except_ok_bind] at h
    rcases hfl : fieldsLoop f rn fds
        (entries.map fun kv => (some kv.1, kv.2)) cmp p
        (entries.map fun kv => ((some kv.1 : Option String), kv.2)).length
        with e1 | out2
    · rw [hfl] at h
      simp at h
    · have hout2 := fieldsLoop_all_undef _ _ _ _ _ _ _ _
        (by
          intro x hx
          obtain ⟨kv, hkv, rfl⟩ := List.mem_map.mp hx
          exact hund kv hkv) hfl
      subst hout2
      rw [hfl] at h
      simp [fieldsEpilogue] at h
      exact h.symm

/-- `querySql` on a query whose where list compiled to the empty fragment:
the no-values result and the piece assembly without any WHERE part. -/
theorem querySql_no_wheres (fuel : Nat) (q : Query) (cnt isSub : Bool)
    (p : Nat) (out : String × List JsVal) (hq : q.wheres = [])
    (h : querySql fuel q cnt isSub p = .ok out) :
    out.2 = [] ∧ ∃ obStr limStr : Option String,
      out.1 =
        (let base := joinSep " "
          (([some ("SELECT " ++ selectSqlOf q.fields q.output q.returns ++ " FROM"),
             some (quoteIdentifier q.table)] ++
            [obStr, limStr]).filterMap id)
         if cnt then "SELECT count(*)::int FROM (" ++ base ++ ") a" else base) := by
  cases fuel with
  | zero => simp [querySql] at h
  | succ f =>
    rw [querySql_succ_eq] at h
    rw [hq] at h
    rcases hgw : getWhereSql f q.recordName q.fields (.arrV []) none "and" p 0
        none with e1 | out1
    · rw [hgw] at h
      simp at h
    · have hout1 := getWhereSql_empty_group f q.recordName q.fields _ none
        "and" p 0 none out1 (Or.inl rfl) hgw
      subst hout1
      rw [hgw] at h
      by_cases hskip : (isSub = true ∧ q.limit = none ∧ q.offset = none)
      · simp [hskip] at h
        subst h
        refine ⟨rfl, none, none, ?_⟩
        simp [hskip]
      · rcases hop : orderByParts q.recordName q.fields
            (if q.orderBys = [] then q.defaultOrderBys else q.orderBys)
            with e2 | obParts
        · simp [hskip, hop] at h
        · simp [hskip, hop] at h
          subst h
          exact ⟨rfl, some ("ORDER BY " ++ joinSep ", " obParts),
            (if q.limit.isSome ∨ q.offset.isSome then
              some (joinSep " "
                ((q.limit.map fun n => "LIMIT " ++ intRepr n).toList ++
                 (q.offset.map fun n => "OFFSET " ++ intRepr n).toList))
             else none), by simp⟩

/-- The query used to refute C9: two empty connective groups accumulated as
top-level wheres. -/
def c9Query : Query :=
  .mk "R" "t" [("id", {})] [.connV false none [], .connV false none []] []
    [("id", some "asc")] none none "record" .noneR

/-- Counterexample to **C9** as stated: a where list holding *two* empty
connective groups does not compile to the empty string — it produces the
degenerate fragment `" AND "`, which is truthy, so the generated SELECT does
contain a WHERE clause. -/
theorem c9_two_empty_groups_counterexample :
    getWhereSql 10 "R" [("id", {})]
        (.arrV [.connV false none [], .connV false none []]) none "and" 0 0
        none = .ok (" AND ", []) ∧
    (" AND " : String) ≠ "" ∧
    querySql 10 c9Query false false 0 =
      .ok ("SELECT * FROM \"t\" WHERE  AND  ORDER BY id ASC", []) := by
  refine ⟨rfl, by decide, rfl⟩

/-- **C9 (amended).** A query with no `where()` calls, or with a *single*
empty connective group, compiles its where list to the empty string with zero
values, and the generated SELECT then contains no WHERE piece at all; an
empty group itself always yields `""` (never the `true` fallback), while a
field-map node all of whose entries were dropped as undefined yields the
literal `true`.  (With two or more empty groups the joined fragment is a
non-empty connective skeleton and a WHERE clause does appear.) -/
theorem c9_empty_where_and_true_fallback :
    (∀ (fuel : Nat) (rn : String) (fds : FieldDefs) (cmp : Option String)
       (conn : String) (p sib : Nat) (lhs : Option String)
       (out : String × List JsVal),
      getWhereSql fuel rn fds (.arrV []) cmp conn p sib lhs = .ok out →
        out = ("", [])) ∧
    (∀ (fuel : Nat) (rn : String) (fds : FieldDefs) (b : Bool)
       (c cmp : Option String) (conn : String) (p sib : Nat)
       (lhs : Option String) (out : String × List JsVal),
      getWhereSql fuel rn fds (.connV b c []) cmp conn p sib lhs = .ok out →
        out = ("", [])) ∧
    (∀ (fuel : Nat) (rn : String) (fds : FieldDefs) (b : Bool)
       (c cmp : Option String) (conn : String) (p sib : Nat)
       (lhs : Option String) (out : String × List JsVal),
      getWhereSql fuel rn fds (.arrV [.connV b c []]) cmp conn p sib lhs =
        .ok out → out = ("", [])) ∧
    (∀ (fuel : Nat) (q : Query) (cnt isSub : Bool) (p : Nat)
       (out : String × List JsVal),
      q.wheres = [] → querySql fuel q cnt isSub p = .ok out →
      out.2 = [] ∧ ∃ obStr limStr : Option String,
        out.1 =
          (let base := joinSep " "
            (([some ("SELECT " ++ selectSqlOf q.fields q.output q.returns ++
                " FROM"), some (quoteIdentifier q.table)] ++
              [obStr, limStr]).filterMap id)
           if cnt then "SELECT count(*)::int FROM (" ++ base ++ ") a"
           else base)) ∧
    (∀ (fuel : Nat) (rn : String) (fds : FieldDefs)
       (entries : List (String × JsVal)) (cmp : Option String) (conn : String)
       (p sib : Nat) (out : String × List JsVal),
      (∀ e ∈ entries, e.2 = JsVal.undefV) →
      getWhereSql fuel rn fds (.objV entries) cmp conn p sib none = .ok out →
        out = ("true", [])) := by
  refine ⟨?_, ?_, ?_, ?_, ?_⟩
  · intro fuel rn fds cmp conn p sib lhs out h
    exact getWhereSql_empty_group fuel rn fds _ cmp conn p sib lhs out
      (Or.inl rfl) h
  · intro fuel rn fds b c cmp conn p sib lhs out h
    exact getWhereSql_empty_group fuel rn fds _ cmp conn p sib lhs out
      (Or.inr ⟨b, c, rfl⟩) h
  · intro fuel rn fds b c cmp conn p sib lhs out h
    exact getWhereSql_single_empty_group fuel rn fds b c cmp conn p sib lhs
      out h
  · intro fuel q cnt isSub p out hq h
    exact querySql_no_wheres fuel q cnt isSub p out hq h
  · intro fuel rn fds entries cmp conn p sib out hund h
    exact getWhereSql_objV_all_undef fuel rn fds entries cmp conn p sib out
      hund h

/-- Witness instantiating `c9_empty_where_and_true_fallback` on concrete
queries. -/
theorem c9_empty_where_and_true_fallback_witness :
    getWhereSql 2 "R" ([] : FieldDefs) (.arrV []) none "and" 0 0 none =
      .ok ("", []) ∧
    (("", []) : String × List JsVal) = ("", []) ∧
    getWhereSql 4 "R" [("f", ({} : FieldDef))]
        (.objV [("f", .undefV)]) none "and" 0 0 none = .ok ("true", []) ∧
    (("true", []) : String × List JsVal) = ("true", []) :=
  ⟨rfl,
   c9_empty_where_and_true_fallback.1 2 "R" [] none "and" 0 0 none ("", [])
     rfl,
   rfl,
   c9_empty_where_and_true_fallback.2.2.2.2 4 "R" [("f", {})]
     [("f", .undefV)] none "and" 0 0 ("true", []) (by simp) rfl⟩

/-! ## Claim C3: connective comparisons for bare children -/

/-- Node position: a field-map child `{f: v}` compiled under an inherited
comparison `cmp` emits `"<column>" <cmp> $<p+1>` binding `v`. -/
theorem getWhereSql_objV_lit (f4 : Nat) (rn : String) (fds : FieldDefs)
    (f : String) (fd : FieldDef) (v : String) (cmp : String) (conn : String)
    (p sib : Nat) (hf : fds.lookup f = some fd)
    (hrhs : cmp ∉ RHS_ONLY_COMPARISONS) (htext : cmp ∉ TEXT_COMPARISONS)
    (hparens : cmp ∉ PARENS_COMPARISONS) :
    getWhereSql (f4 + 4) rn fds (.objV [(f, .litV v)]) (some cmp) conn p sib
        none =
      .ok (joinSep " " [quoteIdentifier (getFieldDbName fds f), cmp,
        "$" ++ natRepr (p + 1)], [.litV v]) := by
  simp [getWhereSql, entriesOf, fieldsLoop, entryCompile, getColumnWhereSql,
    hf, jsOr, hrhs, htext, hparens, synthRhs, joinSep, fieldsEpilogue_single]

/-- Value position: a bare child value compiled under a forced `lhs` (no
inherited comparison) emits `"<column>" = $<p+1>`. -/
theorem getWhereSql_lhs_lit (f3 : Nat) (rn : String) (fds : FieldDefs)
    (f : String) (fd : FieldDef) (v : String) (conn : String) (p sib : Nat)
    (hf : fds.lookup f = some fd) :
    getWhereSql (f3 + 3) rn fds (.litV v) none conn p sib (some f) =
      .ok (joinSep " " [quoteIdentifier (getFieldDbName fds f), "=",
        "$" ++ natRepr (p + 1)], [.litV v]) := by
  simp [getWhereSql, isPojoLike, entryCompile, getColumnWhereSql, hf, jsOr,
    RHS_ONLY_COMPARISONS, TEXT_COMPARISONS, PARENS_COMPARISONS, synthRhs,
    joinSep, fieldsEpilogue_single]

/-- The grouped loop over `{f: v}` children threads the inherited comparison
and numbers placeholders consecutively from `p + 1`. -/
theorem c3GroupLoop (vs : List String) :
    ∀ (extra : Nat) (rn : String) (fds : FieldDefs) (f : String)
      (fd : FieldDef) (cmp : String) (p sib : Nat),
      fds.lookup f = some fd → cmp ∉ RHS_ONLY_COMPARISONS →
      cmp ∉ TEXT_COMPARISONS → cmp ∉ PARENS_COMPARISONS →
      whereGroupLoop (vs.length + extra + 4) rn fds
          (vs.map fun v => .objV [(f, .litV v)]) (some cmp) p sib none =
        .ok ((List.range vs.length).map fun i =>
          joinSep " " [quoteIdentifier (getFieldDbName fds f), cmp,
            "$" ++ natRepr (p + 1 + i)], vs.map .litV) := by
  induction vs with
  | nil =>
    intro extra rn fds f fd cmp p sib _ _ _ _
    exact whereGroupLoop_nil_eq (extra + 3) rn fds (some cmp) p sib none
  | cons v rest ih =>
    intro extra rn fds f fd cmp p sib hf hrhs htext hparens
    have hl : (v :: rest).length + extra + 4 = (rest.length + extra + 4) + 1 := by
      simp [List.length_cons]
      omega
    rw [hl, List.map_cons, whereGroupLoop_cons_eq]
    have hchild := getWhereSql_objV_lit (rest.length + extra) rn fds f fd v cmp
      "and" p sib hf hrhs htext hparens
    rw [show rest.length + extra + 4 = (rest.length + extra) + 4 by omega] at *
    rw [show jsOr (jsCompOf (.objV [(f, .litV v)])) (some cmp) = some cmp
      from rfl]
    rw [hchild]
    simp only [except_ok_bind]
    have hrest := ih extra rn fds f fd cmp (p + 1) sib hf hrhs htext hparens
    rw [show (rest.length + extra) + 4 = rest.length + extra + 4 by omega,
      show p + List.length [JsVal.litV v] = p + 1 by simp] at *
    rw [hrest]
    simp only [except_ok_bind, except_ok_inj, Prod.mk.injEq, List.length_cons]
    refine ⟨?_, by simp⟩
    have hmapeq : (List.range rest.length).map
        (fun i => joinSep " " [quoteIdentifier (getFieldDbName fds f), cmp,
          "$" ++ natRepr (p + 1 + 1 + i)]) =
      (List.range rest.length).map
        (fun i => joinSep " " [quoteIdentifier (getFieldDbName fds f), cmp,
          "$" ++ natRepr (p + 1 + (i + 1))]) :=
      List.map_congr_left (fun a _ => by
        rw [show p + 1 + 1 + a = p + 1 + (a + 1) by omega])
    rw [hmapeq, List.range_succ_eq_map, List.map_cons, List.map_map]
    simp [Function.comp, Nat.succ_eq_add_one]

/-- The connective-as-value loop over bare children compiles each with the
default equality comparison (the connective's own comparison is dropped). -/
theorem c3ConnValueLoop (vs : List String) :
    ∀ (extra : Nat) (rn : String) (fds : FieldDefs) (f : String)
      (fd : FieldDef) (p sib : Nat),
      fds.lookup f = some fd →
      connValueLoop (vs.length + extra + 3) rn fds (vs.map .litV) p sib
          (some f) =
        .ok ((List.range vs.length).map fun i =>
          joinSep " " [quoteIdentifier (getFieldDbName fds f), "=",
            "$" ++ natRepr (p + 1 + i)], vs.map .litV) := by
  induction vs with
  | nil =>
    intro extra rn fds f fd p sib _
    exact connValueLoop_nil_eq (extra + 2) rn fds p sib (some f)
  | cons v rest ih =>
    intro extra rn fds f fd p sib hf
    have hl : (v :: rest).length + extra + 3 = (rest.length + extra + 3) + 1 := by
      simp [List.length_cons]
      omega
    rw [hl, List.map_cons, connValueLoop_cons_eq]
    have hchild := getWhereSql_lhs_lit (rest.length + extra) rn fds f fd v
      "and" p sib hf
    rw [show rest.length + extra + 3 = (rest.length + extra) + 3 by omega] at *
    rw [show jsCompOf (JsVal.litV v) = none from rfl]
    rw [hchild]
    simp only [except_ok_bind]
    have hrest := ih extra rn fds f fd (p + 1) sib hf
    rw [show (rest.length + extra) + 3 = rest.length + extra + 3 by omega,
      show p + List.length [JsVal.litV v] = p + 1 by simp] at *
    rw [hrest]
    simp only [except_ok_bind, except_ok_inj, Prod.mk.injEq, List.length_cons]
    refine ⟨?_, by simp⟩
    have hmapeq : (List.range rest.length).map
        (fun i => joinSep " " [quoteIdentifier (getFieldDbName fds f), "=",
          "$" ++ natRepr (p + 1 + 1 + i)]) =
      (List.range rest.length).map
        (fun i => joinSep " " [quoteIdentifier (getFieldDbName fds f), "=",
          "$" ++ natRepr (p + 1 + (i + 1))]) :=
      List.map_congr_left (fun a _ => by
        rw [show p + 1 + 1 + a = p + 1 + (a + 1) by omega])
    rw [hmapeq, List.range_succ_eq_map, List.map_cons, List.map_map]
    simp [Function.comp, Nat.succ_eq_add_one]

theorem joinSep_head_ne_empty (sep x : String) (xs : List String)
    (hx : x ≠ "") : joinSep sep (x :: xs) ≠ "" := by
  cases xs with
  | nil => simpa [joinSep] using hx
  | cons y ys =>
    simp only [joinSep]
    exact string_append_ne_empty_left (string_append_ne_empty_left hx)

theorem entryCompile_connV_eq (f : Nat) (rn : String) (fds : FieldDefs)
    (k : String) (fd : FieldDef) (isOr : Bool) (c : Option String)
    (children : List JsVal) (cmp : Option String) (p fl : Nat)
    (hlk : fds.lookup k = some fd) :
    entryCompile (f + 1) rn fds (some k) (.connV isOr c children) cmp p fl =
      (do
        let (parts, vs) ←
          connValueLoop f rn fds children p (children.length - 1) (some k)
        Except.ok
          (some (joinWithConnective parts (connName isOr) (fl - 1)), vs)) := by
  simp [entryCompile, hlk]

/-- Counterexample to **C3**: with `{f: Or([1, 2], '>')}` — an explicit
connective carrying the comparison `>` appearing as the value under a field
key — the children are compiled with the default `=`, not with `>`: the
connective's own comparison is dropped by the value-position loop. -/
theorem c3_value_position_comparison_dropped :
    getWhereSql 10 "R" [("f", {})]
        (.arrV [.objV [("f",
          .connV true (some ">") [.litV "1", .litV "2"])]]) none "and" 0 0
        none =
      .ok ("\"f\" = $1 OR \"f\" = $2", [.litV "1", .litV "2"]) ∧
    ("\"f\" = $1 OR \"f\" = $2" : String) ≠ "\"f\" > $1 OR \"f\" > $2" := by
  exact ⟨rfl, by decide⟩

/-- **C3 (amended).** When an explicit connective with comparison `cmp` is a
where node in its own right, every bare child compiled under it uses `cmp`;
but when the connective appears as the value under a field key, its
comparison is ignored and bare children fall back to the default equality
comparison. -/
theorem c3_connective_comparison_scope :
    (∀ (vs : List String) (extra : Nat) (rn : String) (fds : FieldDefs)
       (f : String) (fd : FieldDef) (cmp : String) (isOr : Bool),
      fds.lookup f = some fd → cmp ∉ RHS_ONLY_COMPARISONS →
      cmp ∉ TEXT_COMPARISONS → cmp ∉ PARENS_COMPARISONS →
      getWhereSql (vs.length + extra + 7) rn fds
          (.arrV [.connV isOr (some cmp)
            (vs.map fun v => .objV [(f, .litV v)])]) none "and" 0 0 none =
        .ok (joinSep (" " ++ asciiUpper (connName isOr) ++ " ")
          ((List.range vs.length).map fun i =>
            joinSep " " [quoteIdentifier (getFieldDbName fds f), cmp,
              "$" ++ natRepr (i + 1)]), vs.map .litV)) ∧
    (∀ (vs : List String) (extra : Nat) (rn : String) (fds : FieldDefs)
       (f : String) (fd : FieldDef) (cmp : String) (isOr : Bool),
      vs ≠ [] → fds.lookup f = some fd →
      getWhereSql (vs.length + extra + 8) rn fds
          (.arrV [.objV [(f, .connV isOr (some cmp) (vs.map .litV))]])
          none "and" 0 0 none =
        .ok (joinSep (" " ++ asciiUpper (connName isOr) ++ " ")
          ((List.range vs.length).map fun i =>
            joinSep " " [quoteIdentifier (getFieldDbName fds f), "=",
              "$" ++ natRepr (i + 1)]), vs.map .litV)) := by
  constructor
  · intro vs extra rn fds f fd cmp isOr hf hrhs htext hparens
    rw [show vs.length + extra + 7 = (vs.length + extra + 6) + 1 by omega,
      getWhereSql_arrV_eq]
    rw [show vs.length + extra + 6 = (vs.length + extra + 5) + 1 by omega,
      whereGroupLoop_cons_eq]
    rw [show jsOr (jsCompOf (.connV isOr (some cmp)
      (vs.map fun v => .objV [(f, .litV v)]))) none = some cmp from rfl]
    rw [show vs.length + extra + 5 = (vs.length + extra + 4) + 1 by omega,
      getWhereSql_connV_eq]
    rw [c3GroupLoop vs extra rn fds f fd cmp 0
      ((vs.map fun v => JsVal.objV [(f, JsVal.litV v)]).length - 1)
      hf hrhs htext hparens]
    simp only [except_ok_bind]
    rw [show (vs.length + extra + 4 + 1) = (vs.length + extra + 4) + 1
      by omega, whereGroupLoop_nil_eq]
    simp only [except_ok_bind, except_ok_inj]
    have hmapeq : (List.range vs.length).map
        (fun i => joinSep " " [quoteIdentifier (getFieldDbName fds f), cmp,
          "$" ++ natRepr (0 + 1 + i)]) =
      (List.range vs.length).map
        (fun i => joinSep " " [quoteIdentifier (getFieldDbName fds f), cmp,
          "$" ++ natRepr (i + 1)]) :=
      List.map_congr_left (fun a _ => by
        rw [show 0 + 1 + a = a + 1 by omega])
    rw [hmapeq]
    simp [joinWithConnective, joinSep]
  · intro vs extra rn fds f fd cmp isOr hvs hf
    rw [show vs.length + extra + 8 = (vs.length + extra + 7) + 1 by omega,
      getWhereSql_arrV_eq]
    rw [show vs.length + extra + 7 = (vs.length + extra + 6) + 1 by omega,
      whereGroupLoop_cons_eq]
    rw [show jsOr (jsCompOf (.objV [(f,
      .connV isOr (some cmp) (vs.map .litV))])) none = none from rfl]
    rw [show vs.length + extra + 6 = (vs.length + extra + 5) + 1 by omega,
      getWhereSql_objV_eq]
    simp only [entriesOf, List.map_cons, List.map_nil, except_ok_bind]
    rw [show vs.length + extra + 5 = (vs.length + extra + 4) + 1 by omega,
      fieldsLoop_cons_eq]
    rw [show vs.length + extra + 4 = (vs.length + extra + 3) + 1 by omega,
      entryCompile_connV_eq _ _ _ _ fd _ _ _ _ _ _ hf]
    rw [c3ConnValueLoop vs extra rn fds f fd 0
      ((List.map JsVal.litV vs).length - 1) hf]
    simp only [except_ok_bind]
    rw [show vs.length + extra + 3 + 1 = (vs.length + extra + 3) + 1 by omega,
      fieldsLoop_nil_eq]
    simp only [except_ok_bind]
    rw [show vs.length + extra + 3 + 1 + 1 + 1 = (vs.length + extra + 5) + 1
      by omega, whereGroupLoop_nil_eq]
    simp only [except_ok_bind, except_ok_inj]
    have hmapeq : (List.range vs.length).map
        (fun i => joinSep " " [quoteIdentifier (getFieldDbName fds f), "=",
          "$" ++ natRepr (0 + 1 + i)]) =
      (List.range vs.length).map
        (fun i => joinSep " " [quoteIdentifier (getFieldDbName fds f), "=",
          "$" ++ natRepr (i + 1)]) :=
      List.map_congr_left (fun a _ => by
        rw [show 0 + 1 + a = a + 1 by omega])
    rw [hmapeq]
    obtain ⟨n, hn⟩ : ∃ n, vs.length = n + 1 := by
      cases vs with
      | nil => exact absurd rfl hvs
      | cons x xs => exact ⟨xs.length, by simp⟩
    have hjoined : joinSep (" " ++ asciiUpper (connName isOr) ++ " ")
        ((List.range vs.length).map fun i =>
          joinSep " " [quoteIdentifier (getFieldDbName fds f), "=",
            "$" ++ natRepr (i + 1)]) ≠ "" := by
      rw [hn, List.range_succ_eq_map, List.map_cons]
      exact joinSep_head_ne_empty _ _ _
        (joinSep_head_ne_empty _ _ _ (quoteIdentifier_ne_empty _))
    simp [joinWithConnective, joinSep]
    exact fieldsEpilogue_single _
      (by
        rw [hn, List.range_succ_eq_map, List.map_cons]
        exact joinSep_head_ne_empty _ _ _
          (string_append_ne_empty_left (string_append_ne_empty_left
            (quoteIdentifier_ne_empty _)))) "and" 0


/-- Witness instantiating `c3_connective_comparison_scope` at concrete
inputs. -/
theorem c3_connective_comparison_scope_witness :
    getWhereSql 9 "R" [("f", ({} : FieldDef))]
        (.arrV [.connV true (some ">")
          [.objV [("f", .litV "1")], .objV [("f", .litV "2")]]]) none "and"
        0 0 none =
      .ok (joinSep (" " ++ asciiUpper (connName true) ++ " ")
        ((List.range 2).map fun i =>
          joinSep " " [quoteIdentifier (getFieldDbName [("f", {})] "f"), ">",
            "$" ++ natRepr (i + 1)]), [.litV "1", .litV "2"]) :=
  c3_connective_comparison_scope.1 ["1", "2"] 0 "R" [("f", {})] "f" {} ">"
    true rfl (by decide) (by decide) (by decide)


theorem whereGroupLoop_length (fuel : Nat) :
    ∀ (rn : String) (fds : FieldDefs) (children : List JsVal)
      (cmp : Option String) (p sib : Nat) (lhs : Option String)
      (parts : List String) (vs : List JsVal),
      whereGroupLoop fuel rn fds children cmp p sib lhs = .ok (parts, vs) →
      parts.length = children.length := by
  induction fuel with
  | zero =>
    intro rn fds children cmp p sib lhs parts vs h
    simp [whereGroupLoop] at h
  | succ f ih =>
    intro rn fds children cmp p sib lhs parts vs h
    cases children with
    | nil =>
      rw [whereGroupLoop_nil_eq] at h
      simp at h
      simp [h.1]
    | cons w rest =>
      rw [whereGroupLoop_cons_eq] at h
      cases hA : getWhereSql f rn fds w (jsOr (jsCompOf w) cmp) "and" p sib lhs with
      | error e => rw [hA] at h; simp at h
      | ok qv =>
        obtain ⟨q, vsw⟩ := qv
        rw [hA] at h
        simp only [except_ok_bind] at h
        cases hB : whereGroupLoop f rn fds rest cmp (p + vsw.length) sib lhs with
        | error e => rw [hB] at h; simp at h
        | ok qsv =>
          obtain ⟨qs, vss⟩ := qsv
          rw [hB] at h
          simp at h
          rw [← h.1]
          simp [ih rn fds rest cmp (p + vsw.length) sib lhs qs vss hB]

theorem connValueLoop_length (fuel : Nat) :
    ∀ (rn : String) (fds : FieldDefs) (children : List JsVal) (p sib : Nat)
      (lhs : Option String) (parts : List String) (vs : List JsVal),
      connValueLoop fuel rn fds children p sib lhs = .ok (parts, vs) →
      parts.length = children.length := by
  induction fuel with
  | zero =>
    intro rn fds children p sib lhs parts vs h
    simp [connValueLoop] at h
  | succ f ih =>
    intro rn fds children p sib lhs parts vs h
    cases children with
    | nil =>
      rw [connValueLoop_nil_eq] at h
      simp at h
      simp [h.1]
    | cons w rest =>
      rw [connValueLoop_cons_eq] at h
      cases hA : getWhereSql f rn fds w (jsCompOf w) "and" p sib lhs with
      | error e => rw [hA] at h; simp at h
      | ok qv =>
        obtain ⟨q, vsw⟩ := qv
        rw [hA] at h
        simp only [except_ok_bind] at h
        cases hB : connValueLoop f rn fds rest (p + vsw.length) sib lhs with
        | error e => rw [hB] at h; simp at h
        | ok qsv =>
          obtain ⟨qs, vss⟩ := qsv
          rw [hB] at h
          simp at h
          rw [← h.1]
          simp [ih rn fds rest (p + vsw.length) sib lhs qs vss hB]

/-- **C6.** A connective group's joined fragment is parenthesized iff the
group has more than one child and at least one sibling at its parent's
level.  Conjunct 1: an explicit `And`/`Or` where node; conjunct 2: a bare
array where node; conjunct 3: a connective appearing as the value under a
field key (where the sibling count is the number of other field-map
entries).  In each case the number of joined parts equals the number of
children, so a single-child group, and a sole top-level group (compiled
with `siblings = 0`), are never parenthesized. -/
theorem c6_group_parenthesization :
    (∀ (f : Nat) (rn : String) (fds : FieldDefs) (isOr : Bool)
        (c cmp : Option String) (conn : String) (children : List JsVal)
        (p sib : Nat) (lhs : Option String) (q : String) (vs : List JsVal),
      getWhereSql (f + 1) rn fds (.connV isOr c children) cmp conn p sib lhs =
          .ok (q, vs) →
      ∃ parts : List String, parts.length = children.length ∧
        q = (if 1 < children.length ∧ 0 < sib then
              "(" ++ joinSep (" " ++ asciiUpper (connName isOr) ++ " ") parts ++ ")"
            else joinSep (" " ++ asciiUpper (connName isOr) ++ " ") parts)) ∧
    (∀ (f : Nat) (rn : String) (fds : FieldDefs)
        (cmp : Option String) (conn : String) (children : List JsVal)
        (p sib : Nat) (lhs : Option String) (q : String) (vs : List JsVal),
      getWhereSql (f + 1) rn fds (.arrV children) cmp conn p sib lhs =
          .ok (q, vs) →
      ∃ parts : List String, parts.length = children.length ∧
        q = (if 1 < children.length ∧ 0 < sib then
              "(" ++ joinSep (" " ++ asciiUpper conn ++ " ") parts ++ ")"
            else joinSep (" " ++ asciiUpper conn ++ " ") parts)) ∧
    (∀ (f : Nat) (rn : String) (fds : FieldDefs) (k : String) (fd : FieldDef)
        (isOr : Bool) (c cmp : Option String) (children : List JsVal)
        (p fl : Nat) (q : String) (vs : List JsVal),
      fds.lookup k = some fd →
      entryCompile (f + 1) rn fds (some k) (.connV isOr c children) cmp p fl =
          .ok (some q, vs) →
      ∃ parts : List String, parts.length = children.length ∧
        q = (if 1 < children.length ∧ 0 < fl - 1 then
              "(" ++ joinSep (" " ++ asciiUpper (connName isOr) ++ " ") parts ++ ")"
            else joinSep (" " ++ asciiUpper (connName isOr) ++ " ") parts)) := by
  refine ⟨?_, ?_, ?_⟩
  · intro f rn fds isOr c cmp conn children p sib lhs q vs h
    rw [getWhereSql_connV_eq] at h
    cases hL : whereGroupLoop f rn fds children cmp p (children.length - 1) lhs with
    | error e => rw [hL] at h; simp at h
    | ok pv =>
      obtain ⟨parts, vs0⟩ := pv
      rw [hL] at h
      simp at h
      refine ⟨parts, whereGroupLoop_length f rn fds children cmp p
        (children.length - 1) lhs parts vs0 hL, ?_⟩
      rw [← h.1]
      simp [joinWithConnective,
        whereGroupLoop_length f rn fds children cmp p (children.length - 1)
          lhs parts vs0 hL]
  · intro f rn fds cmp conn children p sib lhs q vs h
    rw [getWhereSql_arrV_eq] at h
    cases hL : whereGroupLoop f rn fds children cmp p (children.length - 1) lhs with
    | error e => rw [hL] at h; simp at h
    | ok pv =>
      obtain ⟨parts, vs0⟩ := pv
      rw [hL] at h
      simp at h
      refine ⟨parts, whereGroupLoop_length f rn fds children cmp p
        (children.length - 1) lhs parts vs0 hL, ?_⟩
      rw [← h.1]
      simp [joinWithConnective,
        whereGroupLoop_length f rn fds children cmp p (children.length - 1)
          lhs parts vs0 hL]
  · intro f rn fds k fd isOr c cmp children p fl q vs hlk h
    rw [entryCompile_connV_eq f rn fds k fd isOr c children cmp p fl hlk] at h
    cases hL : connValueLoop f rn fds children p (children.length - 1) (some k) with
    | error e => rw [hL] at h; simp at h
    | ok pv =>
      obtain ⟨parts, vs0⟩ := pv
      rw [hL] at h
      simp at h
      refine ⟨parts, connValueLoop_length f rn fds children p
        (children.length - 1) (some k) parts vs0 hL, ?_⟩
      rw [← h.1]
      simp [joinWithConnective,
        connValueLoop_length f rn fds children p (children.length - 1)
          (some k) parts vs0 hL]



/-- Witness instantiating conjunct 1 of `c6_group_parenthesization`: a
two-child `Or` group with one sibling is parenthesized. -/
theorem c6_group_parenthesization_witness :
    ∃ parts : List String,
      parts.length =
        ([.objV [("f", .litV "1")], .objV [("f", .litV "2")]] : List JsVal).length ∧
      "(\"f\" = $1 OR \"f\" = $2)" =
        (if 1 < ([.objV [("f", .litV "1")], .objV [("f", .litV "2")]] :
            List JsVal).length ∧ 0 < 1 then
          "(" ++ joinSep (" " ++ asciiUpper (connName true) ++ " ") parts ++ ")"
        else joinSep (" " ++ asciiUpper (connName true) ++ " ") parts) :=
  c6_group_parenthesization.1 9 "R" [("f", {})] true none none "and"
    [.objV [("f", .litV "1")], .objV [("f", .litV "2")]] 0 1 none
    "(\"f\" = $1 OR \"f\" = $2)" [.litV "1", .litV "2"] rfl


/-! ## C2: placeholder contiguity.  Cleanliness of the user-controlled text
that reaches the compiled SQL (no `$` that could be mistaken for a
placeholder), and the phantom-placeholder exclusion for unbound null
wrapped values. -/

/-- No `$` occurs in the string (boolean form of `NoDollar`). -/
def noDollarB (s : String) : Bool := s.data.all fun c => c != '$'

theorem noDollarB_iff (s : String) : noDollarB s = true ↔ NoDollar s.data := by
  simp [noDollarB, NoDollar, List.all_eq_true]

/-- A comparison option is clean when its string carries no `$`. -/
def cleanCmpB : Option String → Bool
  | none => true
  | some s => noDollarB s

/-- Every field's quoted database column name is `$`-free. -/
def cleanFdsB (fds : FieldDefs) : Bool :=
  fds.all fun kv => noDollarB (quoteIdentifier (getFieldDbName fds kv.1))

mutual
/-- Cleanliness of a condition-tree value: comparison strings, symbol
descriptions and rendered unbound literals are `$`-free, embedded sub-queries
are clean, and no unbound `SqlValue` wraps `null` under a
non-parenthesizing comparison (the phantom-placeholder case). -/
def cleanW : JsVal → Bool
  | .objV kvs => cleanKVs kvs
  | .arrV vs => cleanWs vs
  | .setV vs => cleanWs vs
  | .connV _ cmp children => cleanCmpB cmp && cleanWs children
  | .sqlValueV bind cmp quote v =>
    cleanCmpB cmp &&
    (if bind then
      (match v with
       | .queryV qq => if quote then true else cleanQB qq
       | _ => true)
     else
      (noDollarB (jsToString (sqlValueGetValue quote v)) &&
        (PARENS_COMPARISONS.contains ((jsOr cmp (some "=")).getD "=") ||
          (match sqlValueGetValue quote v with
           | .nullV => false
           | _ => true))))
  | .queryV qq => cleanQB qq
  | .litV _ => true
  | .nullV => true
  | .undefV => true
  | .notNullV => true
  | .nowV => true
  | .symV d => noDollarB d

def cleanWs : List JsVal → Bool
  | [] => true
  | v :: vs => cleanW v && cleanWs vs

def cleanKVs : List (String × JsVal) → Bool
  | [] => true
  | (_, v) :: kvs => cleanW v && cleanKVs kvs

/-- Cleanliness of a sub-query: clean field registry and wheres, `$`-free
table identifier, select list and rendered order-by parts. -/
def cleanQB : Query → Bool
  | .mk _ table fds wheres obs dobs _ _ out ret =>
    cleanFdsB fds && cleanWs wheres &&
    noDollarB (quoteIdentifier table) &&
    noDollarB (selectSqlOf fds out ret) &&
    (obs.all fun ob => noDollarB (formatOrderBy fds ob)) &&
    (dobs.all fun ob => noDollarB (formatOrderBy fds ob))
end

/-- Entry-list cleanliness for the ungrouped field loop. -/
def cleanEntries (es : List (Option String × JsVal)) : Bool :=
  es.all fun kv => cleanW kv.2

/-- The concatenated placeholder lists of a fragment list. -/
def phConcat (parts : List String) : List Nat :=
  (parts.map placeholders).flatten

theorem range'_append_nat (s m n : Nat) :
    List.range' s m ++ List.range' (s + m) n = List.range' s (m + n) := by
  have h := List.range'_append s m n 1
  simp only [Nat.one_mul, Nat.mul_one] at h
  rw [Nat.add_comm n m] at h
  exact h

theorem lookup_mem_fds {β : Type} (fds : List (String × β)) (k : String)
    (fd : β) (h : fds.lookup k = some fd) : (k, fd) ∈ fds := by
  induction fds with
  | nil => simp [List.lookup] at h
  | cons kv rest ih =>
    obtain ⟨k1, v1⟩ := kv
    rw [List.lookup] at h
    by_cases hk : k = k1
    · subst hk
      simp at h
      simp [h]
    · have hke : (k == k1) = false := by simpa using hk
      rw [hke] at h
      right
      exact ih h

theorem placeholders_append (a b : String) (hb : HeadNotDigit b.data) :
    placeholders (a ++ b) = placeholders a ++ placeholders b := by
  simp only [placeholders, String.data_append]
  exact phScan_append a.data .idle b.data hb

theorem placeholders_of_nodollar (a : String) (h : NoDollar a.data) :
    placeholders a = [] := phScan_nodollar_nil a.data h

theorem placeholders_nodollar_prefix (a b : String) (h : NoDollar a.data) :
    placeholders (a ++ b) = placeholders b := by
  simp only [placeholders, String.data_append]
  exact phScan_nodollar_prefix a.data b.data h

theorem placeholders_empty : placeholders "" = [] := rfl

/-- Wrapping in parentheses does not change the placeholders. -/
theorem placeholders_paren (s : String) :
    placeholders ("(" ++ s ++ ")") = placeholders s := by
  rw [String.append_assoc, placeholders_nodollar_prefix "(" (s ++ ")")
    (by decide), placeholders_append s ")" (by decide)]
  simp [placeholders_of_nodollar ")" (by decide)]

/-- Joining with a nonempty `$`-free separator whose head is not a digit
concatenates the parts' placeholders. -/
theorem placeholders_joinSep (sep : String) (parts : List String)
    (hd : sep.data ≠ []) (hsep : NoDollar sep.data)
    (hh : HeadNotDigit sep.data) :
    placeholders (joinSep sep parts) = phConcat parts := by
  induction parts with
  | nil => simp [joinSep, phConcat, placeholders_empty]
  | cons x xs ih =>
    cases xs with
    | nil => simp [joinSep, phConcat]
    | cons y ys =>
      have hstep : joinSep sep (x :: y :: ys) =
          x ++ (sep ++ joinSep sep (y :: ys)) := by
        simp [joinSep, String.append_assoc]
      rw [hstep]
      obtain ⟨c, cs, hcs⟩ : ∃ c cs, sep.data = c :: cs := by
        cases h : sep.data with
        | nil => exact absurd h hd
        | cons c cs => exact ⟨c, cs, rfl⟩
      have hcd : c.isDigit = false := by
        have := hh
        rw [hcs] at this
        exact this
      have hmid : HeadNotDigit (sep ++ joinSep sep (y :: ys)).data := by
        rw [String.data_append, hcs]
        exact hcd
      rw [placeholders_append x _ hmid,
        placeholders_nodollar_prefix sep _ hsep, ih]
      simp [phConcat]

/-- A join of `$`-free parts with a `$`-free separator is `$`-free. -/
theorem joinSep_nodollar (sep : String) (parts : List String)
    (hsep : NoDollar sep.data) (h : ∀ x ∈ parts, NoDollar x.data) :
    NoDollar (joinSep sep parts).data := by
  induction parts with
  | nil => intro c hc; simp [joinSep] at hc
  | cons x xs ih =>
    cases xs with
    | nil =>
      simpa [joinSep] using h x (by simp)
    | cons y ys =>
      have hx : NoDollar x.data := h x (by simp)
      have hrest : NoDollar (joinSep sep (y :: ys)).data :=
        ih (fun z hz => h z (by simp at hz; rcases hz with h1 | h1 <;> simp [h1]))
      intro c hc
      simp only [joinSep, String.data_append, List.mem_append] at hc
      rcases hc with (hc | hc) | hc
      · exact hx c hc
      · exact hsep c hc
      · exact hrest c hc


/-- The rendered placeholder `$n` scans to `[n]`. -/
theorem placeholders_dollar (n : Nat) : placeholders ("$" ++ natRepr n) = [n] := by
  have h : ("$" ++ natRepr n).data = ('$' :: natDigits n) ++ [] := by
    simp [String.data_append, natRepr]
  rw [placeholders, h, phScan_placeholder n [] (by trivial)]
  rfl

theorem flatten_map_singleton {α β : Type} (l : List α) (f : α → β) :
    (l.map fun x => [f x]).flatten = l.map f := by
  induction l with
  | nil => rfl
  | cons x xs ih => simp [ih]

/-- The synthesized right-hand side's placeholders are exactly the next
`bindCount` indices, provided the phantom case (zero bound values without a
parenthesizing comparison) is excluded. -/
theorem synthRhs_placeholders (base n : Nat) (cmp : String)
    (h : n ≠ 0 ∨ cmp ∈ PARENS_COMPARISONS) :
    placeholders (synthRhs base n cmp) = List.range' (base + 1) n := by
  by_cases hp : 1 < n ∨ cmp ∈ PARENS_COMPARISONS
  · rw [synthRhs, if_pos hp, placeholders_paren,
      placeholders_joinSep ", " _ (by decide) (by decide) (by decide)]
    rw [phConcat, placeholderList]
    rw [List.map_map]
    have hmap : ∀ i ∈ List.range n,
        (placeholders ∘ fun i => "$" ++ natRepr (base + 1 + i)) i =
          (fun i => [base + 1 + i]) i := by
      intro i _
      simp [Function.comp, placeholders_dollar]
    rw [List.map_congr_left hmap]
    have hfl : (List.range n).map (fun i => [base + 1 + i]) =
        (List.range n).map (fun i => [(fun j => base + 1 + j) i]) := rfl
    rw [hfl, flatten_map_singleton, List.range'_eq_map_range]
  · have hn : n = 1 := by
      rcases h with h | h
      · omega
      · exact absurd (Or.inr h) hp
    subst hn
    rw [synthRhs, if_neg hp, placeholders_dollar]
    simp [List.range']


/-- The separator built from a `$`-free connective is `$`-free, nonempty and
does not start with a digit. -/
theorem connSep_data (conn : String) :
    (" " ++ asciiUpper conn ++ " ").data =
      ' ' :: ((asciiUpper conn).data ++ [' ']) := by
  simp [String.data_append]

theorem connSep_nodollar (conn : String)
    (hconn : NoDollar (asciiUpper conn).data) :
    NoDollar (" " ++ asciiUpper conn ++ " ").data := by
  rw [connSep_data]
  intro c hc
  simp at hc
  rcases hc with hc | hc | hc
  · subst hc; decide
  · exact hconn c hc
  · subst hc; decide

theorem joinWithConnective_ph (parts : List String) (conn : String)
    (sib : Nat) (hconn : NoDollar (asciiUpper conn).data) :
    placeholders (joinWithConnective parts conn sib) = phConcat parts := by
  have hj : placeholders (joinSep (" " ++ asciiUpper conn ++ " ") parts) =
      phConcat parts := by
    refine placeholders_joinSep _ _ ?_ (connSep_nodollar conn hconn) ?_
    · rw [connSep_data]; simp
    · rw [connSep_data]; simp [HeadNotDigit]
  unfold joinWithConnective
  split
  · rw [placeholders_paren, hj]
  · exact hj

theorem phConcat_filter_ne_empty (parts : List String) :
    phConcat (parts.filter fun p => p ≠ "") = phConcat parts := by
  induction parts with
  | nil => rfl
  | cons x xs ih =>
    by_cases hx : x = ""
    · subst hx
      simp [phConcat, List.filter] at ih ⊢
      simpa [placeholders_empty] using ih
    · simp [phConcat, List.filter, hx] at ih ⊢
      rw [ih]

theorem fieldsEpilogue_ph (parts : List String) (conn : String) (sib : Nat)
    (hconn : NoDollar (asciiUpper conn).data) :
    placeholders (fieldsEpilogue parts conn sib) = phConcat parts := by
  unfold fieldsEpilogue
  rw [← phConcat_filter_ne_empty parts]
  cases hm : parts.filter (fun p => p ≠ "") with
  | nil => simp [placeholders_of_nodollar "true" (by decide), phConcat]
  | cons p ps =>
    simp only []
    exact joinWithConnective_ph (p :: ps) conn sib hconn

theorem cleanWs_mem (vs : List JsVal) (h : cleanWs vs = true) :
    ∀ v ∈ vs, cleanW v = true := by
  induction vs with
  | nil => intro v hv; simp at hv
  | cons x xs ih =>
    rw [cleanWs] at h
    simp at h
    intro v hv
    rcases List.mem_cons.mp hv with hv | hv
    · subst hv; exact h.1
    · exact ih h.2 v hv

theorem cleanKVs_mem (kvs : List (String × JsVal)) (h : cleanKVs kvs = true) :
    ∀ kv ∈ kvs, cleanW kv.2 = true := by
  induction kvs with
  | nil => intro kv hkv; simp at hkv
  | cons x xs ih =>
    obtain ⟨k, v⟩ := x
    rw [cleanKVs] at h
    simp at h
    intro kv hkv
    rcases List.mem_cons.mp hkv with hkv | hkv
    · subst hkv; exact h.1
    · exact ih h.2 kv hkv

theorem entriesOf_clean (w : JsVal) (es : List (Option String × JsVal))
    (hw : cleanW w = true) (h : entriesOf w = .ok es) :
    cleanEntries es = true := by
  cases w <;> simp [entriesOf] at h
  case objV kvs =>
    rw [cleanW] at hw
    subst h
    rw [cleanEntries, List.all_eq_true]
    intro x hx
    obtain ⟨kv, hkv, rfl⟩ := List.mem_map.mp hx
    simpa using cleanKVs_mem kvs hw kv hkv
  case setV vsl =>
    rw [cleanW] at hw
    subst h
    rw [cleanEntries, List.all_eq_true]
    intro x hx
    obtain ⟨v, hv, rfl⟩ := List.mem_map.mp hx
    simpa using cleanWs_mem vsl hw v hv
  all_goals (subst h; rfl)

theorem cleanCmp_getD (c : Option String) (h : cleanCmpB c = true) :
    NoDollar ((jsOr c (some "=")).getD "=").data := by
  cases c with
  | none => simp [jsOr]; decide
  | some x =>
    rw [cleanCmpB] at h
    simpa [jsOr] using (noDollarB_iff x).mp h

theorem cleanW_jsOr_comp (w : JsVal) (cmp : Option String)
    (hw : cleanW w = true) (hc : cleanCmpB cmp = true) :
    cleanCmpB (jsOr (jsCompOf w) cmp) = true := by
  cases w <;> simp only [jsCompOf, jsOr]
  case connV isOr c children =>
    rw [cleanW] at hw
    have h1 := ((Bool.and_eq_true _ _).mp hw).1
    cases c with
    | none => exact hc
    | some x => exact h1
  case sqlValueV bind c quote v =>
    have h1 : cleanCmpB c = true := by
      cases v <;>
        (rw [cleanW] at hw <;>
          first
          | exact ((Bool.and_eq_true _ _).mp hw).1
          | (intro qq hqq; simp at hqq))
    cases c with
    | none => exact hc
    | some x => exact h1
  all_goals exact hc

theorem cleanCmpB_of_comp (w : JsVal) (hw : cleanW w = true) :
    cleanCmpB (jsCompOf w) = true := by
  cases w <;> simp only [jsCompOf]
  case connV isOr c children =>
    rw [cleanW] at hw
    have h1 := ((Bool.and_eq_true _ _).mp hw).1
    cases c with
    | none => rfl
    | some x => exact h1
  case sqlValueV bind c quote v =>
    have h1 : cleanCmpB c = true := by
      cases v <;>
        (rw [cleanW] at hw <;>
          first
          | exact ((Bool.and_eq_true _ _).mp hw).1
          | (intro qq hqq; simp at hqq))
    cases c with
    | none => rfl
    | some x => exact h1
  all_goals rfl

theorem orderByParts_ok_eq (rn : String) (fds : FieldDefs)
    (obs : List (String × Option String)) (parts : List String)
    (h : orderByParts rn fds obs = .ok parts) :
    parts = obs.map (formatOrderBy fds) := by
  induction obs generalizing parts with
  | nil => simp [orderByParts] at h; simp [h]
  | cons ob rest ih =>
    rw [orderByParts] at h
    split at h
    · simp at h
    · cases hr : orderByParts rn fds rest with
      | error e => rw [hr] at h; simp at h
      | ok ps =>
        rw [hr] at h
        simp at h
        rw [← h, ih ps hr]
        simp

theorem intRepr_nodollar (n : Int) : NoDollar (intRepr n).data := by
  cases n with
  | ofNat m =>
    simp only [intRepr, natRepr]
    exact natDigits_nodollar m
  | negSucc m =>
    simp only [intRepr, natRepr]
    intro c hc
    simp [String.data_append] at hc
    rcases hc with hc | hc
    · subst hc; decide
    · exact natDigits_nodollar (m + 1) c hc

theorem cleanFds_lhs (fds : FieldDefs) (k : String)
    (hfds : cleanFdsB fds = true) (hk : (fds.lookup k).isSome) :
    NoDollar (quoteIdentifier (getFieldDbName fds k)).data := by
  obtain ⟨fd, hfd⟩ := Option.isSome_iff_exists.mp hk
  have hmem := lookup_mem_fds fds k fd hfd
  rw [cleanFdsB, List.all_eq_true] at hfds
  exact (noDollarB_iff _).mp (hfds (k, fd) hmem)

/-- Result cleanliness of `getColumnWhereSql` at offset `p`: `$`-free
left-hand side and comparison, a literal right-hand side whose placeholders
are exactly the next `values.length` indices, and no phantom placeholder
(a null `rhs` always comes with at least one value or a parenthesizing
comparison). -/
def cleanColInv (p : Nat) (col : ColSql) : Prop :=
  (∀ s, col.lhs = some s → NoDollar s.data) ∧
  cleanCmpB col.comparison = true ∧
  (match col.rhs with
   | .strR s => placeholders s = List.range' (p + 1) col.values.length
   | .nullR => col.values ≠ [] ∨
       ((jsOr col.comparison (some "=")).getD "=") ∈ PARENS_COMPARISONS
   | .undefR => col.values = [])


/-! ### The placeholder-contiguity invariant, one predicate per compiler
function, proved simultaneously by induction on the fuel. -/

def PGW (fuel : Nat) : Prop :=
  ∀ (rn : String) (fds : FieldDefs) (w : JsVal) (cmp : Option String)
    (conn : String) (p sib : Nat) (lhs : Option String) (q : String)
    (vs : List JsVal),
    cleanFdsB fds = true → cleanW w = true → cleanCmpB cmp = true →
    NoDollar (asciiUpper conn).data →
    getWhereSql fuel rn fds w cmp conn p sib lhs = .ok (q, vs) →
    placeholders q = List.range' (p + 1) vs.length

def PWGL (fuel : Nat) : Prop :=
  ∀ (rn : String) (fds : FieldDefs) (children : List JsVal)
    (cmp : Option String) (p sib : Nat) (lhs : Option String)
    (parts : List String) (vs : List JsVal),
    cleanFdsB fds = true → cleanWs children = true → cleanCmpB cmp = true →
    whereGroupLoop fuel rn fds children cmp p sib lhs = .ok (parts, vs) →
    phConcat parts = List.range' (p + 1) vs.length

def PCVL (fuel : Nat) : Prop :=
  ∀ (rn : String) (fds : FieldDefs) (children : List JsVal) (p sib : Nat)
    (lhs : Option String) (parts : List String) (vs : List JsVal),
    cleanFdsB fds = true → cleanWs children = true →
    connValueLoop fuel rn fds children p sib lhs = .ok (parts, vs) →
    phConcat parts = List.range' (p + 1) vs.length

def PFL (fuel : Nat) : Prop :=
  ∀ (rn : String) (fds : FieldDefs) (es : List (Option String × JsVal))
    (cmp : Option String) (p fl : Nat) (parts : List String)
    (vs : List JsVal),
    cleanFdsB fds = true → cleanEntries es = true → cleanCmpB cmp = true →
    fieldsLoop fuel rn fds es cmp p fl = .ok (parts, vs) →
    phConcat parts = List.range' (p + 1) vs.length

def PEC (fuel : Nat) : Prop :=
  ∀ (rn : String) (fds : FieldDefs) (key : Option String) (v : JsVal)
    (cmp : Option String) (p fl : Nat) (part? : Option String)
    (vs : List JsVal),
    cleanFdsB fds = true → cleanW v = true → cleanCmpB cmp = true →
    entryCompile fuel rn fds key v cmp p fl = .ok (part?, vs) →
    (∀ part, part? = some part →
      placeholders part = List.range' (p + 1) vs.length) ∧
    (part? = none → vs = [])

def PGCW (fuel : Nat) : Prop :=
  ∀ (rn : String) (fds : FieldDefs) (key : Option String) (v : JsVal)
    (cmp : Option String) (p : Nat) (col : ColSql),
    cleanFdsB fds = true → cleanW v = true → cleanCmpB cmp = true →
    (∀ k, key = some k → (fds.lookup k).isSome) →
    getColumnWhereSql fuel rn fds key v cmp p = .ok col →
    cleanColInv p col

def PQS (fuel : Nat) : Prop :=
  ∀ (qq : Query) (cnt isSub : Bool) (p : Nat) (q : String) (vs : List JsVal),
    cleanQB qq = true →
    querySql fuel qq cnt isSub p = .ok (q, vs) →
    placeholders q = List.range' (p + 1) vs.length

theorem lhs0_clean (fds : FieldDefs) (key : Option String)
    (hfds : cleanFdsB fds = true)
    (hkey : ∀ k, key = some k → (fds.lookup k).isSome) :
    ∀ s, (key.map fun k => quoteIdentifier (getFieldDbName fds k)) = some s →
      NoDollar s.data := by
  intro s hs
  cases key with
  | none => simp at hs
  | some k =>
    simp at hs
    rw [← hs]
    exact cleanFds_lhs fds k hfds (hkey k rfl)

theorem match_notnull_ne (x : JsVal)
    (h : (match x with | JsVal.nullV => false | _ => true) = true) :
    x ≠ JsVal.nullV := by
  intro hx
  subst hx
  simp at h

theorem cleanW_sqlValue_parts (bind : Bool) (c : Option String) (quote : Bool)
    (v : JsVal) (hw : cleanW (.sqlValueV bind c quote v) = true) :
    cleanCmpB c = true ∧
    (bind = false → noDollarB (jsToString (sqlValueGetValue quote v)) = true ∧
      (((jsOr c (some "=")).getD "=") ∈ PARENS_COMPARISONS ∨
        sqlValueGetValue quote v ≠ .nullV)) ∧
    (∀ qq, v = .queryV qq → bind = true → quote = false →
      cleanQB qq = true) := by
  cases v
  case queryV qq =>
    rw [cleanW] at hw
    have h1 := ((Bool.and_eq_true _ _).mp hw).1
    have h2 := ((Bool.and_eq_true _ _).mp hw).2
    refine ⟨h1, ?_, ?_⟩
    · intro hb
      rw [hb] at h2
      simp at h2
      refine ⟨h2.1, ?_⟩
      rcases h2.2 with hp | hm
      · left; exact hp
      · right; exact match_notnull_ne _ hm
    · intro qq' hqq hb hq
      injection hqq with hqq'
      subst hqq'
      rw [hb, hq] at h2
      simpa using h2
  all_goals (
    rw [cleanW] at hw <;> (try (intro qq hqq; simp at hqq)))
  all_goals (
    have h1 := ((Bool.and_eq_true _ _).mp hw).1
    have h2 := ((Bool.and_eq_true _ _).mp hw).2
    refine ⟨h1, ?_, by intro qq hqq; simp at hqq⟩
    intro hb
    rw [hb] at h2
    simp at h2
    refine ⟨h2.1, ?_⟩
    rcases h2.2 with hp | hm
    · left; exact hp
    · right; exact match_notnull_ne _ hm)

theorem gcw_step (f : Nat) (ihqs : PQS f) : PGCW (f + 1) := by
  intro rn fds key v cmp p col hfds hw hc hkey h
  have hlhs := lhs0_clean fds key hfds hkey
  have hcget : noDollarB ((jsOr cmp (some "=")).getD "=") = true :=
    (noDollarB_iff _).mpr (cleanCmp_getD cmp hc)
  cases v with
  | nullV =>
    simp only [getColumnWhereSql] at h
    split at h <;> (simp at h; rw [← h]; simp only [cleanColInv])
    · exact ⟨hlhs, by decide, by
        simp [placeholders_of_nodollar "NULL" (by decide), List.range']⟩
    · exact ⟨hlhs, hcget, by simp⟩
  | notNullV =>
    simp only [getColumnWhereSql] at h
    split at h <;> (simp at h; rw [← h]; simp only [cleanColInv])
    · exact ⟨hlhs, by decide, by
        simp [placeholders_of_nodollar "NULL" (by decide), List.range']⟩
    · exact ⟨hlhs, hc, by
        simp [placeholders_of_nodollar "NOT NULL" (by decide), List.range']⟩
  | nowV =>
    simp only [getColumnWhereSql] at h
    simp at h
    rw [← h]
    simp only [cleanColInv]
    exact ⟨hlhs, hc, by
      simp [placeholders_of_nodollar "NOW()" (by decide), List.range']⟩
  | symV d =>
    simp only [getColumnWhereSql] at h
    simp at h
    rw [← h]
    rw [cleanW] at hw
    simp only [cleanColInv]
    exact ⟨hlhs, hc, by
      simp [placeholders_of_nodollar d ((noDollarB_iff d).mp hw), List.range']⟩
  | arrV xs =>
    simp only [getColumnWhereSql] at h
    split at h <;> (simp at h; rw [← h]; simp only [cleanColInv])
    · exact ⟨by intro s hs; simp at hs; rw [← hs]; decide, by decide, by
        simp [placeholders_of_nodollar "false" (by decide), List.range']⟩
    · exact ⟨hlhs, by decide, Or.inr (by decide)⟩
  | setV xs =>
    simp only [getColumnWhereSql] at h
    split at h <;> (simp at h; rw [← h]; simp only [cleanColInv])
    · exact ⟨by intro s hs; simp at hs; rw [← hs]; decide, by decide, by
        simp [placeholders_of_nodollar "false" (by decide), List.range']⟩
    · exact ⟨hlhs, by decide, Or.inr (by decide)⟩
  | queryV qq =>
    simp only [getColumnWhereSql] at h
    rw [cleanW] at hw
    cases hqs : querySql f qq false true p with
    | error e => rw [hqs] at h; simp at h
    | ok qv =>
      obtain ⟨qt, qvs⟩ := qv
      rw [hqs] at h
      simp at h
      rw [← h]
      simp only [cleanColInv]
      refine ⟨hlhs, by decide, ?_⟩
      show placeholders ("(" ++ qt ++ ")") = _
      rw [placeholders_paren]
      exact ihqs qq false true p qt qvs hw hqs
  | litV lit =>
    simp only [getColumnWhereSql] at h
    simp at h
    rw [← h]
    simp only [cleanColInv]
    exact ⟨hlhs, hcget, by simp⟩
  | undefV =>
    simp only [getColumnWhereSql] at h
    simp at h
    rw [← h]
    simp only [cleanColInv]
    exact ⟨hlhs, hcget, by simp⟩
  | objV kvs =>
    simp only [getColumnWhereSql] at h
    simp at h
    rw [← h]
    simp only [cleanColInv]
    exact ⟨hlhs, hcget, by simp⟩
  | connV isOr c children =>
    simp only [getColumnWhereSql] at h
    simp at h
    rw [← h]
    simp only [cleanColInv]
    exact ⟨hlhs, hcget, by simp⟩
  | sqlValueV bind c quote v =>
    obtain ⟨hcc, hnb, hqcl⟩ := cleanW_sqlValue_parts bind c quote v hw
    have hccget : noDollarB ((jsOr c (some "=")).getD "=") = true :=
      (noDollarB_iff _).mpr (cleanCmp_getD c hcc)
    simp only [getColumnWhereSql] at h
    cases bind with
    | true =>
      rw [if_pos rfl] at h
      cases quote with
      | true =>
        rw [show sqlValueGetValue true v = .litV (quoteLiteralStr v) from rfl]
          at h
        simp at h
        rw [← h]
        simp only [cleanColInv]
        exact ⟨hlhs, hccget, Or.inl (by simp)⟩
      | false =>
        rw [show sqlValueGetValue false v = v from rfl] at h
        cases v
        case arrV xs =>
          simp at h
          split at h
          case isTrue hpar =>
            simp only [except_ok_inj] at h
            rw [← h]
            simp only [cleanColInv]
            exact ⟨hlhs, hccget, Or.inr hpar⟩
          case isFalse hpar =>
            simp only [except_ok_inj] at h
            rw [← h]
            simp only [cleanColInv]
            exact ⟨hlhs, hccget, Or.inl (by simp)⟩
        case setV xs =>
          simp at h
          split at h
          case isTrue hpar =>
            simp only [except_ok_inj] at h
            rw [← h]
            simp only [cleanColInv]
            exact ⟨hlhs, hccget, Or.inr hpar⟩
          case isFalse hpar =>
            simp only [except_ok_inj] at h
            rw [← h]
            simp only [cleanColInv]
            exact ⟨hlhs, hccget, Or.inl (by simp)⟩
        case queryV qq =>
          have hq : cleanQB qq = true := hqcl qq rfl rfl rfl
          simp at h
          cases hqs : querySql f qq false true p with
          | error e =>
            rw [hqs] at h
            simp at h
          | ok qv =>
            obtain ⟨qt, qvs⟩ := qv
            rw [hqs] at h
            simp at h
            rw [← h]
            simp only [cleanColInv]
            refine ⟨hlhs, hccget, ?_⟩
            show placeholders ("(" ++ qt ++ ")") = _
            rw [placeholders_paren]
            exact ihqs qq false true p qt qvs hq hqs
        all_goals (
          simp at h
          rw [← h]
          simp only [cleanColInv]
          exact ⟨hlhs, hccget, Or.inl (by simp)⟩)
    | false =>
      obtain ⟨hnd, hpm⟩ := hnb rfl
      rw [if_neg (by simp)] at h
      split at h
      case isTrue hpar =>
        cases hts : jsTemplateE (sqlValueGetValue quote v) with
        | error e => rw [hts] at h; simp at h
        | ok srd =>
          rw [hts] at h
          simp at h
          rw [← h]
          simp only [cleanColInv]
          refine ⟨hlhs, hccget, ?_⟩
          show placeholders ("(" ++ srd ++ ")") = _
          rw [placeholders_paren]
          have hsrd : srd = jsToString (sqlValueGetValue quote v) := by
            rw [jsTemplateE] at hts
            split at hts
            · simp at hts
            · simp at hts
              rw [hts]
          rw [hsrd]
          simp [placeholders_of_nodollar _ ((noDollarB_iff _).mp hnd),
            List.range']
      case isFalse hpar =>
        rcases hpm with hp | hnn
        · exact absurd hp hpar
        · split at h
          next heq => exact absurd heq hnn
          next heq =>
            simp at h
            rw [← h]
            simp only [cleanColInv]
            exact ⟨hlhs, hccget, trivial⟩
          next hne1 hne2 =>
            cases hts : jsTemplateE (sqlValueGetValue quote v) with
            | error e => rw [hts] at h; simp at h
            | ok srd =>
              rw [hts] at h
              simp at h
              rw [← h]
              simp only [cleanColInv]
              refine ⟨hlhs, hccget, ?_⟩
              have hsrd : srd = jsToString (sqlValueGetValue quote v) := by
                rw [jsTemplateE] at hts
                split at hts
                · simp at hts
                · simp at hts
                  rw [hts]
              show placeholders srd = _
              rw [hsrd]
              simp [placeholders_of_nodollar _ ((noDollarB_iff _).mp hnd),
                List.range']


theorem phConcat_cons (x : String) (xs : List String) :
    phConcat (x :: xs) = placeholders x ++ phConcat xs := by
  simp [phConcat]

theorem wgl_step (f : Nat) (ihgw : PGW f) (ihwgl : PWGL f) : PWGL (f + 1) := by
  intro rn fds children cmp p sib lhs parts vs hfds hcs hc h
  cases children with
  | nil =>
    rw [whereGroupLoop_nil_eq] at h
    simp at h
    simp [h.1, h.2, phConcat, List.range']
  | cons w rest =>
    rw [whereGroupLoop_cons_eq] at h
    rw [cleanWs] at hcs
    have hw := ((Bool.and_eq_true _ _).mp hcs).1
    have hrest := ((Bool.and_eq_true _ _).mp hcs).2
    cases hA : getWhereSql f rn fds w (jsOr (jsCompOf w) cmp) "and" p sib lhs with
    | error e => rw [hA] at h; simp at h
    | ok qv =>
      obtain ⟨q, vsw⟩ := qv
      rw [hA] at h
      simp only [except_ok_bind] at h
      cases hB : whereGroupLoop f rn fds rest cmp (p + vsw.length) sib lhs with
      | error e => rw [hB] at h; simp at h
      | ok qsv =>
        obtain ⟨qs, vss⟩ := qsv
        rw [hB] at h
        simp at h
        have h1 := ihgw rn fds w (jsOr (jsCompOf w) cmp) "and" p sib lhs q vsw
          hfds hw (cleanW_jsOr_comp w cmp hw hc) (by decide) hA
        have h2 := ihwgl rn fds rest cmp (p + vsw.length) sib lhs qs vss hfds
          hrest hc hB
        rw [← h.1, ← h.2, phConcat_cons, h1, h2,
          show p + vsw.length + 1 = p + 1 + vsw.length by omega,
          range'_append_nat]
        simp

theorem cvl_step (f : Nat) (ihgw : PGW f) (ihcvl : PCVL f) : PCVL (f + 1) := by
  intro rn fds children p sib lhs parts vs hfds hcs h
  cases children with
  | nil =>
    rw [connValueLoop_nil_eq] at h
    simp at h
    simp [h.1, h.2, phConcat, List.range']
  | cons w rest =>
    rw [connValueLoop_cons_eq] at h
    rw [cleanWs] at hcs
    have hw := ((Bool.and_eq_true _ _).mp hcs).1
    have hrest := ((Bool.and_eq_true _ _).mp hcs).2
    cases hA : getWhereSql f rn fds w (jsCompOf w) "and" p sib lhs with
    | error e => rw [hA] at h; simp at h
    | ok qv =>
      obtain ⟨q, vsw⟩ := qv
      rw [hA] at h
      simp only [except_ok_bind] at h
      cases hB : connValueLoop f rn fds rest (p + vsw.length) sib lhs with
      | error e => rw [hB] at h; simp at h
      | ok qsv =>
        obtain ⟨qs, vss⟩ := qsv
        rw [hB] at h
        simp at h
        have h1 := ihgw rn fds w (jsCompOf w) "and" p sib lhs q vsw
          hfds hw (cleanCmpB_of_comp w hw) (by decide) hA
        have h2 := ihcvl rn fds rest (p + vsw.length) sib lhs qs vss hfds
          hrest hB
        rw [← h.1, ← h.2, phConcat_cons, h1, h2,
          show p + vsw.length + 1 = p + 1 + vsw.length by omega,
          range'_append_nat]
        simp

theorem fl_step (f : Nat) (ihec : PEC f) (ihfl : PFL f) : PFL (f + 1) := by
  intro rn fds es cmp p fl parts vs hfds hes hc h
  cases es with
  | nil =>
    rw [fieldsLoop_nil_eq] at h
    simp at h
    simp [h.1, h.2, phConcat, List.range']
  | cons kv rest =>
    obtain ⟨k, v⟩ := kv
    rw [fieldsLoop_cons_eq] at h
    rw [cleanEntries, List.all_cons] at hes
    have hv := ((Bool.and_eq_true _ _).mp hes).1
    have hrest : cleanEntries rest = true := ((Bool.and_eq_true _ _).mp hes).2
    cases hA : entryCompile f rn fds k v cmp p fl with
    | error e => rw [hA] at h; simp at h
    | ok pv =>
      obtain ⟨part?, vsw⟩ := pv
      rw [hA] at h
      simp only [except_ok_bind] at h
      cases hB : fieldsLoop f rn fds rest cmp (p + vsw.length) fl with
      | error e => rw [hB] at h; simp at h
      | ok qsv =>
        obtain ⟨qs, vss⟩ := qsv
        rw [hB] at h
        simp at h
        have hE := ihec rn fds k v cmp p fl part? vsw hfds hv hc hA
        have h2 := ihfl rn fds rest cmp (p + vsw.length) fl qs vss hfds
          hrest hc hB
        cases part? with
        | some part =>
          simp only [] at h
          rw [← h.1, ← h.2, phConcat_cons, hE.1 part rfl, h2,
            show p + vsw.length + 1 = p + 1 + vsw.length by omega,
            range'_append_nat]
          simp
        | none =>
          simp only [] at h
          have hvempty := hE.2 rfl
          subst hvempty
          rw [← h.1, ← h.2, h2]
          simp

theorem gw_entry_finish (f : Nat) (ihec : PEC f) (rn : String)
    (fds : FieldDefs) (w : JsVal) (cmp : Option String) (conn : String)
    (p sib : Nat) (k? : Option String) (q : String) (vs : List JsVal)
    (hfds : cleanFdsB fds = true) (hw : cleanW w = true)
    (hc : cleanCmpB cmp = true) (hconn : NoDollar (asciiUpper conn).data)
    (hstep : getWhereSql (f + 1) rn fds w cmp conn p sib k? = (do
      let (part?, vsx) ← entryCompile f rn fds k? w cmp p 1
      Except.ok (fieldsEpilogue part?.toList conn sib, vsx)))
    (h : getWhereSql (f + 1) rn fds w cmp conn p sib k? = .ok (q, vs)) :
    placeholders q = List.range' (p + 1) vs.length := by
  rw [hstep] at h
  cases hA : entryCompile f rn fds k? w cmp p 1 with
  | error e => rw [hA] at h; simp at h
  | ok pv =>
    obtain ⟨part?, vsx⟩ := pv
    rw [hA] at h
    simp at h
    have hE := ihec rn fds k? w cmp p 1 part? vsx hfds hw hc hA
    rw [← h.1, ← h.2, fieldsEpilogue_ph _ conn sib hconn]
    cases part? with
    | some part =>
      simpa [phConcat] using hE.1 part rfl
    | none =>
      have hvempty := hE.2 rfl
      subst hvempty
      simp [phConcat, List.range']

theorem gw_fields_finish (f : Nat) (ihfl : PFL f) (rn : String)
    (fds : FieldDefs) (w : JsVal) (cmp : Option String) (conn : String)
    (p sib : Nat) (q : String) (vs : List JsVal)
    (hfds : cleanFdsB fds = true) (hw : cleanW w = true)
    (hc : cleanCmpB cmp = true) (hconn : NoDollar (asciiUpper conn).data)
    (hstep : getWhereSql (f + 1) rn fds w cmp conn p sib none = (do
      let es ← entriesOf w
      let (parts, vsx) ← fieldsLoop f rn fds es cmp p es.length
      Except.ok (fieldsEpilogue parts conn sib, vsx)))
    (h : getWhereSql (f + 1) rn fds w cmp conn p sib none = .ok (q, vs)) :
    placeholders q = List.range' (p + 1) vs.length := by
  rw [hstep] at h
  cases hes : entriesOf w with
  | error e => rw [hes] at h; simp at h
  | ok es =>
    rw [hes] at h
    simp only [except_ok_bind] at h
    cases hA : fieldsLoop f rn fds es cmp p es.length with
    | error e => rw [hA] at h; simp at h
    | ok pv =>
      obtain ⟨parts, vsx⟩ := pv
      rw [hA] at h
      simp at h
      have hE := ihfl rn fds es cmp p es.length parts vsx hfds
        (entriesOf_clean w es hw hes) hc hA
      rw [← h.1, ← h.2, fieldsEpilogue_ph _ conn sib hconn]
      exact hE


theorem phConcat_append (xs ys : List String) :
    phConcat (xs ++ ys) = phConcat xs ++ phConcat ys := by
  simp [phConcat]

/-- The regular (non-connective) value branch of `entryCompile`
(lines 754–776), abstracted over the already-computed text-cast flag. -/
def colBody (f : Nat) (rn : String) (fds : FieldDefs) (key : Option String)
    (v : JsVal) (cmp : Option String) (p : Nat) (ctFlag : Bool) :
    Except SqlError (Option String × List JsVal) := do
  let col ← getColumnWhereSql f rn fds key v cmp p
  let sqlComparison := (jsOr col.comparison (some "=")).getD "="
  if key.isSome ∧ sqlComparison ∈ RHS_ONLY_COMPARISONS then
    .error (.whereParser ("Where parsing failed for key \"" ++
      key.getD "" ++ "\". Comparison requested (" ++ sqlComparison ++
      ") does not support a left hand side."))
  else
    let castText : Bool := TEXT_COMPARISONS.contains sqlComparison && ctFlag
    let sqlLhs : Option String :=
      if castText then col.lhs.map (fun s => s ++ "::text") else col.lhs
    let rhs? : Option String :=
      match col.rhs with
      | .nullR => some (synthRhs p col.values.length sqlComparison)
      | .undefR => none
      | .strR s => some s
    let queryPart :=
      joinSep " " (sqlLhs.toList ++ [sqlComparison] ++ rhs?.toList)
    .ok (some queryPart, col.values)

theorem entryCompile_noKey_eq (f : Nat) (rn : String) (fds : FieldDefs)
    (v : JsVal) (cmp : Option String) (p fl : Nat) :
    entryCompile (f + 1) rn fds none v cmp p fl =
      (match v with
       | .undefV => .ok (none, [])
       | .connV isOr _ children => (do
           let (parts, vsx) ←
             connValueLoop f rn fds children p (children.length - 1) none
           Except.ok
             (some (joinWithConnective parts (connName isOr) (fl - 1)), vsx))
       | v' => colBody f rn fds none v' cmp p false) := by
  cases v <;> rfl

theorem entryCompile_keyFd_eq (f : Nat) (rn : String) (fds : FieldDefs)
    (k : String) (fd : FieldDef) (v : JsVal) (cmp : Option String) (p fl : Nat)
    (hlk : fds.lookup k = some fd) :
    entryCompile (f + 1) rn fds (some k) v cmp p fl =
      (match v with
       | .undefV => .ok (none, [])
       | .connV isOr _ children => (do
           let (parts, vsx) ←
             connValueLoop f rn fds children p (children.length - 1) (some k)
           Except.ok
             (some (joinWithConnective parts (connName isOr) (fl - 1)), vsx))
       | v' => colBody f rn fds (some k) v' cmp p (fd.type != "text")) := by
  have hstep : entryCompile (f + 1) rn fds (some k) v cmp p fl =
      (match (some k : Option String), fds.lookup k with
       | some k', none => Except.error (SqlError.fieldNotFound k' rn)
       | _, _ =>
         (match v with
          | .undefV => .ok (none, [])
          | .connV isOr _ children => (do
              let (parts, vsx) ←
                connValueLoop f rn fds children p (children.length - 1) (some k)
              Except.ok
                (some (joinWithConnective parts (connName isOr) (fl - 1)), vsx))
          | v' => colBody f rn fds (some k) v' cmp p
              (match fds.lookup k with
               | some fd' => fd'.type != "text"
               | none => false))) := by
    cases v <;> rfl
  rw [hstep, hlk]

theorem entryCompile_keyNoFd_eq (f : Nat) (rn : String) (fds : FieldDefs)
    (k : String) (v : JsVal) (cmp : Option String) (p fl : Nat)
    (hlk : fds.lookup k = none) :
    entryCompile (f + 1) rn fds (some k) v cmp p fl =
      .error (.fieldNotFound k rn) := by
  have hstep : entryCompile (f + 1) rn fds (some k) v cmp p fl =
      (match (some k : Option String), fds.lookup k with
       | some k', none => Except.error (SqlError.fieldNotFound k' rn)
       | _, _ =>
         (match v with
          | .undefV => .ok (none, [])
          | .connV isOr _ children => (do
              let (parts, vsx) ←
                connValueLoop f rn fds children p (children.length - 1) (some k)
              Except.ok
                (some (joinWithConnective parts (connName isOr) (fl - 1)), vsx))
          | v' => colBody f rn fds (some k) v' cmp p
              (match fds.lookup k with
               | some fd' => fd'.type != "text"
               | none => false))) := by
    cases v <;> rfl
  rw [hstep, hlk]


theorem phConcat_opt_nodollar (o : Option String)
    (h : ∀ s, o = some s → NoDollar s.data) : phConcat o.toList = [] := by
  cases o with
  | none => rfl
  | some s => simp [phConcat, placeholders_of_nodollar s (h s rfl)]

theorem ec_col_finish (f : Nat) (ihgcw : PGCW f) (rn : String)
    (fds : FieldDefs) (key : Option String) (v : JsVal) (cmp : Option String)
    (p : Nat) (ctFlag : Bool) (part? : Option String) (vs : List JsVal)
    (hfds : cleanFdsB fds = true) (hw : cleanW v = true)
    (hc : cleanCmpB cmp = true)
    (hkey : ∀ k, key = some k → (fds.lookup k).isSome)
    (h : colBody f rn fds key v cmp p ctFlag = .ok (part?, vs)) :
    (∀ part, part? = some part →
      placeholders part = List.range' (p + 1) vs.length) ∧
    (part? = none → vs = []) := by
  rw [colBody] at h
  cases hgc : getColumnWhereSql f rn fds key v cmp p with
  | error e => rw [hgc] at h; simp at h
  | ok col =>
    obtain ⟨hlhsC, hcmpC, hrhsC⟩ := ihgcw rn fds key v cmp p col hfds hw hc hkey hgc
    rw [hgc] at h
    simp only [except_ok_bind] at h
    split at h
    · simp at h
    · simp at h
      obtain ⟨hpq, hvq⟩ := h
      subst hpq
      subst hvq
      refine ⟨?_, by intro hn; simp at hn⟩
      intro part hp
      injection hp with hp'
      subst hp'
      rw [placeholders_joinSep " " _ (by decide) (by decide) (by decide),
        phConcat_append, phConcat_cons]
      have hscmp : NoDollar ((jsOr col.comparison (some "=")).getD "=").data :=
        cleanCmp_getD col.comparison hcmpC
      have h1 : phConcat
          (if (jsOr col.comparison (some "=")).getD "=" ∈ TEXT_COMPARISONS ∧ ctFlag = true
           then Option.map (fun s => s ++ "::text") col.lhs else col.lhs).toList = [] := by
        split
        · refine phConcat_opt_nodollar _ ?_
          intro s hs
          cases hl : col.lhs with
          | none => rw [hl] at hs; simp at hs
          | some t =>
            rw [hl] at hs
            simp at hs
            rw [← hs]
            intro ch hch
            rw [String.data_append] at hch
            rcases List.mem_append.mp hch with hch | hch
            · exact hlhsC t hl ch hch
            · exact (by decide : NoDollar "::text".data) ch hch
        · exact phConcat_opt_nodollar _ hlhsC
      have h3 : phConcat
          (match col.rhs with
           | RhsV.nullR => some (synthRhs p col.values.length
               ((jsOr col.comparison (some "=")).getD "="))
           | RhsV.undefR => none
           | RhsV.strR s => some s).toList =
          List.range' (p + 1) col.values.length := by
        cases hr : col.rhs with
        | nullR =>
          rw [hr] at hrhsC
          simp only [Option.toList_some, phConcat_cons]
          rw [synthRhs_placeholders p col.values.length _
            (by
              rcases hrhsC with hv | hv
              · left; simpa using hv
              · right; exact hv)]
          simp [phConcat]
        | undefR =>
          rw [hr] at hrhsC
          simp [phConcat, hrhsC, List.range']
        | strR str =>
          rw [hr] at hrhsC
          simp only [Option.toList_some, phConcat_cons]
          rw [hrhsC]
          simp [phConcat]
      rw [h1, h3]
      simp [placeholders_of_nodollar _ hscmp]

theorem ec_value_finish (f : Nat) (ihcvl : PCVL f) (ihgcw : PGCW f)
    (rn : String) (fds : FieldDefs) (key : Option String) (v : JsVal)
    (cmp : Option String) (p fl : Nat) (ctFlag : Bool) (part? : Option String)
    (vs : List JsVal) (hfds : cleanFdsB fds = true) (hw : cleanW v = true)
    (hc : cleanCmpB cmp = true)
    (hkey : ∀ k, key = some k → (fds.lookup k).isSome)
    (h : (match v with
          | .undefV => Except.ok (none, [])
          | .connV isOr _ children => (do
              let (parts, vsx) ←
                connValueLoop f rn fds children p (children.length - 1) key
              Except.ok
                (some (joinWithConnective parts (connName isOr) (fl - 1)), vsx))
          | v' => colBody f rn fds key v' cmp p ctFlag) = .ok (part?, vs)) :
    (∀ part, part? = some part →
      placeholders part = List.range' (p + 1) vs.length) ∧
    (part? = none → vs = []) := by
  cases v
  case undefV =>
    have h' : (Except.ok (none, []) :
        Except SqlError (Option String × List JsVal)) = .ok (part?, vs) := h
    simp at h'
    obtain ⟨h1, h2⟩ := h'
    subst h1
    subst h2
    exact ⟨fun part hp => absurd hp (by simp), fun _ => rfl⟩
  case connV isOr c children =>
    have h' : (do
        let (parts, vsx) ←
          connValueLoop f rn fds children p (children.length - 1) key
        Except.ok
          (some (joinWithConnective parts (connName isOr) (fl - 1)), vsx)) =
        Except.ok (part?, vs) := h
    rw [cleanW] at hw
    have hch := ((Bool.and_eq_true _ _).mp hw).2
    cases hL : connValueLoop f rn fds children p (children.length - 1) key with
    | error e => rw [hL] at h'; simp at h'
    | ok pv =>
      obtain ⟨parts, vsx⟩ := pv
      rw [hL] at h'
      simp at h'
      obtain ⟨h1, h2⟩ := h'
      subst h1
      subst h2
      refine ⟨?_, by intro hn; simp at hn⟩
      intro part hp
      injection hp with hp'
      subst hp'
      rw [joinWithConnective_ph parts (connName isOr) (fl - 1)
        (by cases isOr <;> decide)]
      exact ihcvl rn fds children p (children.length - 1) key parts vsx hfds
        hch hL
  all_goals
    exact ec_col_finish f ihgcw rn fds key _ cmp p ctFlag part? vs hfds hw hc
      hkey h

theorem ec_step (f : Nat) (ihcvl : PCVL f) (ihgcw : PGCW f) : PEC (f + 1) := by
  intro rn fds key v cmp p fl part? vs hfds hw hc h
  cases key with
  | none =>
    rw [entryCompile_noKey_eq] at h
    exact ec_value_finish f ihcvl ihgcw rn fds none v cmp p fl false part? vs
      hfds hw hc (by intro k hk; simp at hk) h
  | some k =>
    cases hlk : fds.lookup k with
    | none =>
      rw [entryCompile_keyNoFd_eq f rn fds k v cmp p fl hlk] at h
      simp at h
    | some fd =>
      rw [entryCompile_keyFd_eq f rn fds k fd v cmp p fl hlk] at h
      exact ec_value_finish f ihcvl ihgcw rn fds (some k) v cmp p fl
        (fd.type != "text") part? vs hfds hw hc
        (by intro k' hk'; injection hk' with hk''; rw [← hk'', hlk]; rfl) h


theorem nodollar_append (a b : String) (ha : NoDollar a.data)
    (hb : NoDollar b.data) : NoDollar (a ++ b).data := by
  intro c hc
  rw [String.data_append] at hc
  rcases List.mem_append.mp hc with h | h
  · exact ha c h
  · exact hb c h

theorem gw_step (f : Nat) (ihwgl : PWGL f) (ihec : PEC f) (ihfl : PFL f) :
    PGW (f + 1) := by
  intro rn fds w cmp conn p sib lhs q vs hfds hw hc hconn h
  cases w
  case connV isOr c children =>
    rw [getWhereSql_connV_eq] at h
    rw [cleanW] at hw
    have hch := ((Bool.and_eq_true _ _).mp hw).2
    cases hL : whereGroupLoop f rn fds children cmp p (children.length - 1)
        lhs with
    | error e => rw [hL] at h; simp at h
    | ok pv =>
      obtain ⟨parts, vs0⟩ := pv
      rw [hL] at h
      simp at h
      obtain ⟨h1, h2⟩ := h
      subst h1
      subst h2
      rw [joinWithConnective_ph parts (connName isOr) sib
        (by cases isOr <;> decide)]
      exact ihwgl rn fds children cmp p (children.length - 1) lhs parts vs0
        hfds hch hc hL
  case arrV children =>
    rw [getWhereSql_arrV_eq] at h
    rw [cleanW] at hw
    cases hL : whereGroupLoop f rn fds children cmp p (children.length - 1)
        lhs with
    | error e => rw [hL] at h; simp at h
    | ok pv =>
      obtain ⟨parts, vs0⟩ := pv
      rw [hL] at h
      simp at h
      obtain ⟨h1, h2⟩ := h
      subst h1
      subst h2
      rw [joinWithConnective_ph parts conn sib hconn]
      exact ihwgl rn fds children cmp p (children.length - 1) lhs parts vs0
        hfds hw hc hL
  case objV kvs =>
    cases lhs with
    | some k => simp [getWhereSql, isPojoLike] at h
    | none =>
      exact gw_fields_finish f ihfl rn fds (.objV kvs) cmp conn p sib q vs
        hfds hw hc hconn rfl h
  case sqlValueV bind c quote v =>
    exact gw_entry_finish f ihec rn fds (.sqlValueV bind c quote v) cmp conn
      p sib lhs q vs hfds hw hc hconn (by cases lhs <;> rfl) h
  all_goals (
    cases lhs with
    | some k =>
      exact gw_entry_finish f ihec rn fds _ cmp conn p sib (some k) q vs hfds
        hw hc hconn rfl h
    | none =>
      exact gw_fields_finish f ihfl rn fds _ cmp conn p sib q vs hfds hw hc
        hconn rfl h)

theorem count_wrap_ph (Q : String) :
    placeholders ("SELECT count(*)::int FROM (" ++ Q ++ ") a") =
      placeholders Q := by
  rw [String.append_assoc,
    placeholders_nodollar_prefix _ _ (by decide),
    placeholders_append _ _ (by decide)]
  simp [placeholders_of_nodollar ") a" (by decide)]

theorem query_pieces_ph (wq P1 P2 : String) (OB LIM : Option String)
    (h1 : NoDollar P1.data) (h2 : NoDollar P2.data)
    (hOB : ∀ s, OB = some s → NoDollar s.data)
    (hLIM : ∀ s, LIM = some s → NoDollar s.data) :
    placeholders (joinSep " " (([some P1, some P2] ++
      [(if wq ≠ "" then some "WHERE" else none),
       (if wq ≠ "" then some wq else none)] ++
      [OB, LIM]).filterMap id)) = placeholders wq := by
  have hOBn : ∀ s, OB = some s → placeholders s = [] := fun s hs =>
    placeholders_of_nodollar s (hOB s hs)
  have hLIMn : ∀ s, LIM = some s → placeholders s = [] := fun s hs =>
    placeholders_of_nodollar s (hLIM s hs)
  by_cases hwq : wq = ""
  · subst hwq
    cases OB with
    | none =>
      cases LIM with
      | none =>
        simp
        rw [placeholders_joinSep " " _ (by decide) (by decide) (by decide)]
        simp [phConcat, placeholders_of_nodollar P1 h1,
          placeholders_of_nodollar P2 h2, placeholders_empty]
      | some sl =>
        simp
        rw [placeholders_joinSep " " _ (by decide) (by decide) (by decide)]
        simp [phConcat, placeholders_of_nodollar P1 h1,
          placeholders_of_nodollar P2 h2, hLIMn sl rfl, placeholders_empty]
    | some so =>
      cases LIM with
      | none =>
        simp
        rw [placeholders_joinSep " " _ (by decide) (by decide) (by decide)]
        simp [phConcat, placeholders_of_nodollar P1 h1,
          placeholders_of_nodollar P2 h2, hOBn so rfl, placeholders_empty]
      | some sl =>
        simp
        rw [placeholders_joinSep " " _ (by decide) (by decide) (by decide)]
        simp [phConcat, placeholders_of_nodollar P1 h1,
          placeholders_of_nodollar P2 h2, hOBn so rfl, hLIMn sl rfl,
          placeholders_empty]
  · cases OB with
    | none =>
      cases LIM with
      | none =>
        simp [hwq]
        rw [placeholders_joinSep " " _ (by decide) (by decide) (by decide)]
        simp [phConcat, placeholders_of_nodollar P1 h1,
          placeholders_of_nodollar P2 h2,
          placeholders_of_nodollar "WHERE" (by decide)]
      | some sl =>
        simp [hwq]
        rw [placeholders_joinSep " " _ (by decide) (by decide) (by decide)]
        simp [phConcat, placeholders_of_nodollar P1 h1,
          placeholders_of_nodollar P2 h2,
          placeholders_of_nodollar "WHERE" (by decide), hLIMn sl rfl]
    | some so =>
      cases LIM with
      | none =>
        simp [hwq]
        rw [placeholders_joinSep " " _ (by decide) (by decide) (by decide)]
        simp [phConcat, placeholders_of_nodollar P1 h1,
          placeholders_of_nodollar P2 h2,
          placeholders_of_nodollar "WHERE" (by decide), hOBn so rfl]
      | some sl =>
        simp [hwq]
        rw [placeholders_joinSep " " _ (by decide) (by decide) (by decide)]
        simp [phConcat, placeholders_of_nodollar P1 h1,
          placeholders_of_nodollar P2 h2,
          placeholders_of_nodollar "WHERE" (by decide), hOBn so rfl,
          hLIMn sl rfl]


theorem qs_step (f : Nat) (ihgw : PGW f) : PQS (f + 1) := by
  intro qq cnt isSub p q vs hq h
  obtain ⟨rn, table, fds, wheres, obs, dobs, lim, off, out, ret⟩ := qq
  rw [cleanQB] at hq
  simp only [Bool.and_eq_true] at hq
  obtain ⟨⟨⟨⟨⟨hfds, hws⟩, htab⟩, hsel⟩, hobs⟩, hdobs⟩ := hq
  rw [querySql_succ_eq] at h
  simp only [Query.recordName, Query.table, Query.fields, Query.wheres,
    Query.orderBys, Query.defaultOrderBys, Query.limit, Query.offset,
    Query.output, Query.returns] at h
  cases hW : getWhereSql f rn fds (.arrV wheres) none "and" p 0 none with
  | error e => rw [hW] at h; simp at h
  | ok wqv =>
    obtain ⟨wq, wvs⟩ := wqv
    rw [hW] at h
    simp only [except_ok_bind] at h
    have hwph : placeholders wq = List.range' (p + 1) wvs.length :=
      ihgw rn fds (.arrV wheres) none "and" p 0 none wq wvs hfds
        (by rw [cleanW]; exact hws) rfl (by decide) hW
    have hP1 : NoDollar ("SELECT " ++ selectSqlOf fds out ret ++ " FROM").data :=
      nodollar_append _ _
        (nodollar_append _ _ (by decide) ((noDollarB_iff _).mp hsel))
        (by decide)
    have hP2 : NoDollar (quoteIdentifier table).data := (noDollarB_iff _).mp htab
    have hLIM : ∀ s,
        (if lim.isSome ∨ off.isSome then
          some (joinSep " "
            ((lim.map fun n => "LIMIT " ++ intRepr n).toList ++
             (off.map fun n => "OFFSET " ++ intRepr n).toList))
        else none) = some s → NoDollar s.data := by
      intro s hs
      split at hs
      · simp at hs
        rw [← hs]
        refine joinSep_nodollar " " _ (by decide) ?_
        intro x hx
        rcases List.mem_append.mp hx with hx | hx
        · cases lim with
          | none => simp at hx
          | some n =>
            simp at hx
            subst hx
            exact nodollar_append _ _ (by decide) (intRepr_nodollar n)
        · cases off with
          | none => simp at hx
          | some n =>
            simp at hx
            subst hx
            exact nodollar_append _ _ (by decide) (intRepr_nodollar n)
      · simp at hs
    split at h
    · -- canSkipOrderBy: no ORDER BY piece
      simp only [except_pure_eq_ok, except_ok_bind] at h
      simp only [except_ok_inj, Prod.mk.injEq] at h
      obtain ⟨h1, h2⟩ := h
      subst h1
      subst h2
      cases cnt with
      | false =>
        rw [if_neg (by simp)]
        rw [query_pieces_ph wq _ _ none _ hP1 hP2 (by intro s hs; simp at hs)
          hLIM]
        exact hwph
      | true =>
        rw [if_pos (by trivial)]
        rw [count_wrap_ph,
          query_pieces_ph wq _ _ none _ hP1 hP2 (by intro s hs; simp at hs)
            hLIM]
        exact hwph
    · -- ORDER BY present
      cases hob : orderByParts rn fds (if obs.isEmpty then dobs else obs) with
      | error e => rw [hob] at h; simp at h
      | ok obparts =>
        rw [hob] at h
        simp only [except_ok_bind, except_pure_eq_ok] at h
        simp only [except_ok_inj, Prod.mk.injEq] at h
        obtain ⟨h1, h2⟩ := h
        subst h1
        subst h2
        have hOB : ∀ s,
            (some ("ORDER BY " ++ joinSep ", " obparts) : Option String) =
              some s → NoDollar s.data := by
          intro s hs
          injection hs with hs'
          rw [← hs']
          refine nodollar_append _ _ (by decide) ?_
          refine joinSep_nodollar ", " _ (by decide) ?_
          intro x hx
          rw [orderByParts_ok_eq rn fds _ obparts hob] at hx
          obtain ⟨ob, hob2, rfl⟩ := List.mem_map.mp hx
          by_cases hoe : obs.isEmpty
          · rw [if_pos hoe] at hob2
            exact (noDollarB_iff _).mp (List.all_eq_true.mp hdobs ob hob2)
          · rw [if_neg hoe] at hob2
            exact (noDollarB_iff _).mp (List.all_eq_true.mp hobs ob hob2)
        cases cnt with
        | false =>
          rw [if_neg (by simp)]
          rw [query_pieces_ph wq _ _
            (some ("ORDER BY " ++ joinSep ", " obparts)) _ hP1 hP2 hOB hLIM]
          exact hwph
        | true =>
          rw [if_pos (by trivial)]
          rw [count_wrap_ph,
            query_pieces_ph wq _ _
              (some ("ORDER BY " ++ joinSep ", " obparts)) _ hP1 hP2 hOB hLIM]
          exact hwph


/-- The placeholder-contiguity invariant for all seven compiler functions,
by simultaneous induction on the fuel. -/
theorem phInv : ∀ fuel : Nat,
    PGW fuel ∧ PWGL fuel ∧ PCVL fuel ∧ PFL fuel ∧ PEC fuel ∧ PGCW fuel ∧
      PQS fuel := by
  intro fuel
  induction fuel with
  | zero =>
    refine ⟨?_, ?_, ?_, ?_, ?_, ?_, ?_⟩
    · intro rn fds w cmp conn p sib lhs q vs _ _ _ _ h
      simp [getWhereSql] at h
    · intro rn fds children cmp p sib lhs parts vs _ _ _ h
      simp [whereGroupLoop] at h
    · intro rn fds children p sib lhs parts vs _ _ h
      simp [connValueLoop] at h
    · intro rn fds es cmp p fl parts vs _ _ _ h
      simp [fieldsLoop] at h
    · intro rn fds key v cmp p fl part? vs _ _ _ h
      simp [entryCompile] at h
    · intro rn fds key v cmp p col _ _ _ _ h
      simp [getColumnWhereSql] at h
    · intro qq cnt isSub p q vs _ h
      simp [querySql] at h
  | succ f ih =>
    obtain ⟨ihgw, ihwgl, ihcvl, ihfl, ihec, ihgcw, ihqs⟩ := ih
    exact ⟨gw_step f ihwgl ihec ihfl, wgl_step f ihgw ihwgl,
      cvl_step f ihgw ihcvl, fl_step f ihec ihfl, ec_step f ihcvl ihgcw,
      gcw_step f ihqs, qs_step f ihgw⟩


/-- Counterexample to **C2**: an unbound `SqlValue` wrapping `null` (JS
`new SqlValue(null, {bind: false})`) under a field key compiles to the text
`"f" = $1` with an empty value list — the placeholder `$1` is a phantom, so
the placeholder indices are `{1}` while `{1..N}` for `N = values.length = 0`
is empty. -/
theorem c2_nonbind_null_phantom_counterexample :
    getWhereSql 5 "R" [("f", ({} : FieldDef))]
        (.objV [("f", .sqlValueV false none false .nullV)]) none "and" 0 0
        none = .ok ("\"f\" = $1", []) ∧
    placeholders "\"f\" = $1" = [1] ∧
    List.range' 1 ([] : List JsVal).length = [] := by
  refine ⟨rfl, ?_, rfl⟩
  decide

/-- **C2 (amended).**  For every clean condition tree (no `$` in comparison
strings, symbol descriptions, rendered unbound literals, field column names,
or sub-query select/order-by/table text, and no unbound `SqlValue` wrapping
`null` under a non-parenthesizing comparison) compiled at parameter offset 0,
the placeholder indices appearing in the returned SQL text are exactly
`1..values.length` in order — no gaps, no repeats — including placeholders
contributed by embedded sub-queries. -/
theorem c2_placeholder_contiguity (fuel : Nat) (rn : String)
    (fds : FieldDefs) (w : JsVal) (q : String) (vs : List JsVal)
    (hfds : cleanFdsB fds = true) (hw : cleanW w = true)
    (h : getWhereSql fuel rn fds w none "and" 0 0 none = .ok (q, vs)) :
    placeholders q = List.range' 1 vs.length :=
  (phInv fuel).1 rn fds w none "and" 0 0 none q vs hfds hw rfl (by decide) h

/-- Witness for **C2 (amended)** on a nested tree with an embedded sub-query:
`[{g: 7, f: SqlValue([subquery], 'IN')}, {id: 5}]` compiles to three
placeholders `$1 $2 $3` (the sub-query continues the outer numbering) with
three bound values. -/
theorem c2_placeholder_contiguity_witness :
    placeholders
        "(\"g\" = $1 AND \"f\" IN (SELECT * FROM \"sub\" WHERE \"id\" = $2)) AND \"id\" = $3" =
      List.range' 1
        ([.litV "7", .litV "3", .litV "5"] : List JsVal).length :=
  c2_placeholder_contiguity 20 "R"
    [("g", {}), ("f", {}), ("id", {})]
    (.arrV [.objV [("g", .litV "7"),
        ("f", .sqlValueV true (some "IN") false
          (.queryV (.mk "S" "sub" [("id", ({} : FieldDef))]
            [.objV [("id", .litV "3")]] [] [] none none "record" .noneR)))],
      .objV [("id", .litV "5")]])
    "(\"g\" = $1 AND \"f\" IN (SELECT * FROM \"sub\" WHERE \"id\" = $2)) AND \"id\" = $3"
    [.litV "7", .litV "3", .litV "5"]
    (by decide) (by decide) rfl

end SQL
